import Mathlib

/-!
Verification of the Kairo course-scheduling core
(`backend/api/services/schedule_service.py`, the grouped selector in
`backend/api/views.py`, and the orchestrator in
`backend/api/services/schedule_generator_service.py`) against its
natural-language specification.

The Python code is shallowly embedded: dictionaries become association
lists in insertion order (Python 3.7+ dict semantics), `datetime.time`
objects become an hour/minute structure ordered lexicographically,
free-text parsing helpers are translated regex-by-regex, and the
try/except structure is reflected by total functions that return the
value the corresponding `except` handler would return.
-/

namespace Kairo

/-! ## String helpers (Python `str` methods used by the service) -/

/-- Python `str.strip()`: drop leading and trailing whitespace. -/
def pyStrip (s : String) : String :=
  String.mk ((s.toList.dropWhile Char.isWhitespace).reverse.dropWhile Char.isWhitespace).reverse

/-- Python `str.lower()` (ASCII behaviour, which is all the service feeds it). -/
def pyLower (s : String) : String := String.mk (s.toList.map Char.toLower)

/-- Python `str.upper()` (ASCII behaviour). -/
def pyUpper (s : String) : String := String.mk (s.toList.map Char.toUpper)

/-- Python `str.replace(" ", "")`: remove every space. -/
def removeSpaces (s : String) : String := String.mk (s.toList.filter (· ≠ ' '))

/-- Python `str.title()`: an alphabetic character is uppercased when it
follows a non-alphabetic character (or starts the string), and lowercased
otherwise. -/
def pyTitle (s : String) : String :=
  String.mk ((s.toList.foldl
    (fun (acc : List Char × Bool) c =>
      if c.isAlpha then
        (((if acc.2 then c.toLower else c.toUpper) :: acc.1), true)
      else (c :: acc.1, false)) ([], false)).1.reverse)

/-- Whether `needle` occurs as a contiguous sublist of `hay` (Python `needle in hay`). -/
def sublistIn (needle hay : List Char) : Bool :=
  if needle.length = 0 then true
  else match hay with
    | [] => false
    | _ :: t => (needle.isPrefixOf hay) || sublistIn needle t

/-- Python substring test `needle in hay` on strings. -/
def strIn (needle hay : String) : Bool := sublistIn needle.toList hay.toList

/-- Python `any(tok in s for tok in toks)`. -/
def anyTokIn (toks : List String) (s : String) : Bool := toks.any (fun t => strIn t s)

/-! ## Times: `datetime.time` objects and `_parse_time_string` -/

/-- A `datetime.time` value as constructed by `_parse_time_string`:
hour and minute.  Python orders `time` objects lexicographically. -/
structure Tm where
  hour : Nat
  minute : Nat
deriving DecidableEq, Repr

/-- Python `time` comparison `a <= b` (lexicographic on (hour, minute)). -/
def Tm.leB (a b : Tm) : Bool :=
  a.hour < b.hour || (a.hour = b.hour && a.minute ≤ b.minute)

/-- Minutes since midnight, as computed by `_get_section_priority`
(`start_time.hour * 60 + start_time.minute`). -/
def Tm.toMinutes (t : Tm) : Nat := t.hour * 60 + t.minute

/-- Python `datetime.time(h, m)` raises `ValueError` outside 0..23 / 0..59;
the service catches that and returns `None`. -/
def tmValid (h m : Nat) : Bool := h ≤ 23 && m ≤ 59

/-- Read exactly `n` leading decimal digits. -/
def takeDigits : Nat → List Char → Option (List Char × List Char)
  | 0, cs => some ([], cs)
  | n + 1, c :: cs =>
      if c.isDigit then
        match takeDigits n cs with
        | some (ds, rest) => some (c :: ds, rest)
        | none => none
      else none
  | _ + 1, [] => none

/-- Numeric value of a digit string (`int(...)` on regex groups). -/
def digitsToNat (ds : List Char) : Nat :=
  ds.foldl (fun acc c => acc * 10 + (c.toNat - '0'.toNat)) 0

/-- Match `\d{1,2} SEP \d{2}` at the head of `cs` (greedy: the regex
`\d{1,2}` first tries two digits, then one).  Returns the two digit
groups and the remaining input. -/
def matchClockAt (sep : Char) (cs : List Char) : Option (List Char × List Char × List Char) :=
  let try2 : Option (List Char × List Char × List Char) :=
    match takeDigits 2 cs with
    | some (h, rest) =>
        (match rest with
         | c :: rest2 =>
             if c = sep then
               match takeDigits 2 rest2 with
               | some (m, rest3) => some (h, m, rest3)
               | none => none
             else none
         | [] => none)
    | none => none
  match try2 with
  | some r => some r
  | none =>
    match takeDigits 1 cs with
    | some (h, rest) =>
        (match rest with
         | c :: rest2 =>
             if c = sep then
               match takeDigits 2 rest2 with
               | some (m, rest3) => some (h, m, rest3)
               | none => none
             else none
         | [] => none)
    | none => none

/-- Match the full pattern `\d{1,2} SEP \d{2} \s* - \s* \d{1,2} SEP \d{2}`
at the head of `cs`. -/
def matchTimeRangeAt (sep : Char) (cs : List Char) : Option (List Char × List Char × List Char × List Char) :=
  match matchClockAt sep cs with
  | none => none
  | some (h1, m1, rest) =>
    let rest2 := rest.dropWhile Char.isWhitespace
    match rest2 with
    | '-' :: rest3 =>
        let rest4 := rest3.dropWhile Char.isWhitespace
        (match matchClockAt sep rest4 with
         | none => none
         | some (h2, m2, _) => some (h1, m1, h2, m2))
    | _ => none

/-- Python `re.search`: try the pattern at every start position, leftmost match wins. -/
def searchTimeRange (sep : Char) : List Char → Option (List Char × List Char × List Char × List Char)
  | [] => none
  | c :: cs =>
      match matchTimeRangeAt sep (c :: cs) with
      | some r => some r
      | none => searchTimeRange sep cs

/-- Embeds `ScheduleService._parse_time_string`: parse `'08:30 - 10:00'` (or the
French `08h30 - 10h00`) into a pair of `time` objects.  Empty input, `'TBA'`,
no regex match, or an out-of-range `time(...)` construction give `None`
(the last via the caught `ValueError`).  When the first pattern matches but
the times are invalid, the exception aborts the whole function, so the
second pattern is not tried. -/
def parseTimeString (timeStr : String) : Option (Tm × Tm) :=
  if timeStr = "" || timeStr = "TBA" then none
  else
    let s := (pyStrip timeStr).toList
    match searchTimeRange ':' s with
    | some (h1, m1, h2, m2) =>
        let sh := digitsToNat h1
        let sm := digitsToNat m1
        let eh := digitsToNat h2
        let em := digitsToNat m2
        if tmValid sh sm && tmValid eh em then some (⟨sh, sm⟩, ⟨eh, em⟩) else none
    | none =>
      match searchTimeRange 'h' s with
      | some (h1, m1, h2, m2) =>
          let sh := digitsToNat h1
          let sm := digitsToNat m1
          let eh := digitsToNat h2
          let em := digitsToNat m2
          if tmValid sh sm && tmValid eh em then some (⟨sh, sm⟩, ⟨eh, em⟩) else none
      | none => none

/-! ## Days: `_parse_days_string` -/

/-- The value of a `days` field in a section dict: Python passes either a
string such as `"MWF"` or a list such as `["Mo", "We"]`. -/
inductive DaysInput where
  | str (s : String)
  | list (l : List String)
deriving DecidableEq, Repr

/-- Full weekday names, in the order of the service's `day_mapping` values. -/
def fullDayNames : List String :=
  ["Monday", "Tuesday", "Wednesday", "Thursday", "Friday", "Saturday", "Sunday"]

/-- Python `item.lower() in [v.lower() for v in day_mapping.values()]`. -/
def isFullDayName (s : String) : Bool :=
  (fullDayNames.map pyLower).contains (pyLower s)

/-- The `day_mapping` dict: one- and two-letter codes to full names. -/
def dayMapping : List (String × String) :=
  [("M", "Monday"), ("Mo", "Monday"),
   ("T", "Tuesday"), ("Tu", "Tuesday"),
   ("W", "Wednesday"), ("We", "Wednesday"),
   ("R", "Thursday"), ("Th", "Thursday"),
   ("F", "Friday"), ("Fr", "Friday"),
   ("S", "Saturday"), ("Sa", "Saturday"),
   ("U", "Sunday"), ("Su", "Sunday")]

/-- Exact-key lookup in `day_mapping` (Python `item in day_mapping`). -/
def dayMapLookup (k : String) : Option String :=
  (dayMapping.find? (fun p => p.1 = k)).map Prod.snd

/-- Python `re.split(r"[,/\s]+", s)` with empty tokens dropped. -/
def splitDayTokens (s : String) : List String :=
  (s.toList.foldr
    (fun c (acc : List (List Char)) =>
      if c = ',' || c = '/' || c.isWhitespace then
        match acc with
        | [] :: _ => acc
        | _ => [] :: acc
      else
        match acc with
        | t :: rest => (c :: t) :: rest
        | [] => [[c]]) []).filterMap
    (fun t => if t.isEmpty then none else some (String.mk t))

/-- Embeds `ScheduleService._parse_days_string`: normalize a days value into a
list of full weekday names. -/
def parseDaysString : DaysInput → List String
  | .list items =>
      items.foldl
        (fun days item =>
          if isFullDayName item then days ++ [pyTitle item]
          else match dayMapLookup item with
            | some name => days ++ [name]
            | none => days) []
  | .str s =>
      if s = "" then []
      else
        let tokens := splitDayTokens s
        if tokens.any isFullDayName then
          tokens.foldl
            (fun days tok => if isFullDayName tok then days ++ [pyTitle tok] else days) []
        else
          (pyUpper s).toList.foldl
            (fun days c =>
              match dayMapLookup (String.mk [c]) with
              | some name => days ++ [name]
              | none => days) []

/-! ## Section candidates (the normalized section dicts) -/

/-- A raw `status`/`availability`/`openStatus`/`open` value: the scraped
data holds either a boolean or a free-text string. -/
inductive StatusV where
  | b (v : Bool)
  | s (v : String)
deriving DecidableEq, Repr

/-- One normalized section dict.  Key names follow the service
(`'section'` is the Lean keyword, so that key is the `sectionLabel`
field; `'type'` is the `stype` field).  `course_code`/`section_code`
are the key names used by the views-layer dicts; `title` is `Option`
because the service dicts do not carry that key and
`add_sections_to_calendar` uses `.get('title', 'Course')`. -/
structure Section where
  code : String := ""
  course_code : String := ""
  section_code : String := ""
  sectionLabel : String := ""
  title : Option String := none
  time : String := ""
  days : DaysInput := .list []
  instructor : String := ""
  location : String := ""
  courseTitle : String := ""
  stype : String := "LEC"
  status : StatusV := .s ""
  is_open : Bool := false
deriving DecidableEq, Repr

/-! ## Time-conflict detector (`_times_conflict`, `_section_conflicts_with_schedule`) -/

/-- Embeds `ScheduleService._times_conflict`: two ranges conflict when they
overlap; touching endpoints (`end1 <= start2` or `end2 <= start1`) do not. -/
def timesConflict (t1 t2 : Tm × Tm) : Bool :=
  !(Tm.leB t1.2 t2.1 || Tm.leB t2.2 t1.1)

/-- Embeds `ScheduleService._section_conflicts_with_schedule`: false when the
section's own time or days fail to parse; otherwise true iff some already
scheduled item (whose time and days parse) shares a day and has a
conflicting time range. -/
def sectionConflictsWithSchedule (sec : Section) (existing : List Section) : Bool :=
  match parseTimeString sec.time with
  | none => false
  | some sectionTimes =>
    let sectionDays := parseDaysString sec.days
    if sectionDays.isEmpty then false
    else
      existing.any (fun item =>
        match parseTimeString item.time with
        | none => false
        | some itemTimes =>
          let itemDays := parseDaysString item.days
          if itemDays.isEmpty then false
          else
            sectionDays.any (fun d => itemDays.contains d) && timesConflict sectionTimes itemTimes)

/-! ## Candidate priority and sorting (`_get_section_priority`, `auto_select_sections`) -/

/-- Embeds `ScheduleService._get_section_priority`: start minutes since midnight
when the time parses, else 2000; plus 1000 when the uppercased location
contains `ONLINE` or `TBA`.  Lower is better. -/
def getSectionPriority (sec : Section) : Nat :=
  let location := pyUpper sec.location
  (match parseTimeString sec.time with
   | some (startTime, _) => startTime.toMinutes
   | none => 2000) +
  (if strIn "ONLINE" location || strIn "TBA" location then 1000 else 0)

/-- Stable insertion of `x` into `l`: `x` goes before the first element it
is `le` to, so equal keys keep their original relative order. -/
def insertSorted (le : α → α → Bool) (x : α) : List α → List α
  | [] => [x]
  | y :: ys => if le x y then x :: y :: ys else y :: insertSorted le x ys

/-- Stable sort; Python's `sorted` is specified to be stable, and a stable
sort by a total preorder is a unique function, so this is the same
function `sorted(..., key=...)` computes. -/
def stableSort (le : α → α → Bool) : List α → List α
  | [] => []
  | x :: xs => insertSorted le x (stableSort le xs)

/-- Python `0 if s.get('is_open', False) else 1`. -/
def openBit (s : Section) : Nat := if s.is_open then 0 else 1

/-- Python tuple comparison `(f a, g a) <= (f b, g b)` on numeric keys. -/
def natLexLe (f g : α → Nat) (a b : α) : Bool :=
  f a < f b || (f a = f b && g a ≤ g b)

/-- The candidate sort key of `auto_select_sections`:
`(0 if is_open else 1, _get_section_priority(s))`, compared as Python
compares tuples. -/
def secSortLe : Section → Section → Bool := natLexLe openBit getSectionPriority

/-- The course sort key of `auto_select_sections`: ascending candidate count. -/
def courseLenLe (a b : String × List Section) : Bool := a.2.length ≤ b.2.length

/-- One step of the simple-mode greedy loop: pick the first sorted
candidate that does not conflict with the running schedule. -/
def autoSelectStep (acc : List (String × Option Section) × List Section)
    (cs : String × List Section) : List (String × Option Section) × List Section :=
  let (selected, schedule) := acc
  let (courseCode, sections) := cs
  if sections.isEmpty then (selected ++ [(courseCode, none)], schedule)
  else
    let sortedSections := stableSort secSortLe sections
    match sortedSections.find? (fun s => !sectionConflictsWithSchedule s schedule) with
    | some best => (selected ++ [(courseCode, some best)], schedule ++ [best])
    | none => (selected ++ [(courseCode, none)], schedule)

/-- Embeds `ScheduleService.auto_select_sections` (simple mode): courses sorted by
candidate count ascending, candidates sorted open-first then by priority,
first non-conflicting candidate committed.  The input/output dicts are
association lists in insertion order. -/
def autoSelectSections (available : List (String × List Section)) :
    List (String × Option Section) :=
  ((stableSort courseLenLe available).foldl autoSelectStep ([], [])).1

/-- The sections committed by a simple-mode run. -/
def committedSections (result : List (String × Option Section)) : List Section :=
  result.filterMap Prod.snd

/-! ## Grouped-mode selector (`views.select_valid_sections`, `views.has_time_conflict`) -/

/-- Python `set(days)`: a list stands for the set of its items, a string
for the set of its characters. -/
def daysSetList : DaysInput → List String
  | .list l => l
  | .str s => s.toList.map (fun c => String.mk [c])

/-- Nonempty set intersection (`new_days.intersection(existing_days)` truthiness). -/
def setsIntersect (a b : List String) : Bool := a.any (fun x => b.contains x)

/-- Embeds `views.has_time_conflict`: no info means no conflict; otherwise a
conflict is a shared day together with an *identical* time string
(`new_time == existing_time`). -/
def hasTimeConflict (newSec : Section) (existing : List Section) : Bool :=
  let newDays := daysSetList newSec.days
  if newDays.isEmpty || newSec.time = "" then false
  else
    existing.any (fun e =>
      setsIntersect newDays (daysSetList e.days) && newSec.time = e.time)

/-- Embeds `start_minutes` inside `select_valid_sections`: first `HH:MM` found in
the time string, in minutes, else 10^6. -/
def startMinutesV (sec : Section) : Nat :=
  match (fun cs => (searchTimeRangeAux cs : Option (List Char × List Char))) sec.time.toList with
  | some (h, m) => digitsToNat h * 60 + digitsToNat m
  | none => 10 ^ 6
where
  searchTimeRangeAux : List Char → Option (List Char × List Char)
    | [] => none
    | c :: cs =>
        match matchClockAt ':' (c :: cs) with
        | some (h, m, _) => some (h, m)
        | none => searchTimeRangeAux cs

/-- Grouped-mode candidate sort key: `(0 if is_open else 1, start_minutes(s))`. -/
def secSortLeV : Section → Section → Bool := natLexLe openBit startMinutesV

/-- The nested map `courses[course_code][section_group][section_type]`, insertion-ordered. -/
abbrev CoursesMap : Type := List (String × List (Char × List (String × List Section)))

/-- Insert-or-update in an insertion-ordered association list. -/
def updAssoc [DecidableEq κ] (k : κ) (f : ν → ν) (dflt : ν) : List (κ × ν) → List (κ × ν)
  | [] => [(k, f dflt)]
  | (k2, v) :: rest => if k2 = k then (k2, f v) :: rest else (k2, v) :: updAssoc k f dflt rest

/-- The nested grouping loop of `select_valid_sections`: group by course
code, then by leading section-group character (`section_code[0]`, default
`'A'`), then by section type. -/
def buildCourses (available : List Section) : CoursesMap :=
  available.foldl
    (fun courses sec =>
      let group : Char := sec.section_code.toList.headD 'A'
      updAssoc sec.course_code
        (fun groups =>
          updAssoc group
            (fun types => updAssoc sec.stype (fun secs => secs ++ [sec]) [] types)
            [] groups)
        [] courses)
    []

/-- The type-by-type loop of one group attempt: pick, per section type,
the first sorted candidate with no `has_time_conflict` against the global
selection plus this group's picks so far; a type with no viable candidate
fails the whole group (the Python loop sets `group_has_conflicts` and
breaks). -/
def tryGroupGo (selected : List Section) :
    List (String × List Section) → List Section → Option (List Section)
  | [], sofar => some sofar
  | tysecs :: rest, sofar =>
    match (stableSort secSortLeV tysecs.2).find?
        (fun s => !hasTimeConflict s (selected ++ sofar)) with
    | some s => tryGroupGo selected rest (sofar ++ [s])
    | none => none

/-- Try one section group, starting from no picks. -/
def tryGroup (selected : List Section) (gtypes : List (String × List Section)) :
    Option (List Section) :=
  tryGroupGo selected gtypes []

/-- Try section groups in order; the first group whose every type is
satisfiable (and that selected at least one section) is committed whole. -/
def tryGroups (selected : List Section) :
    List (Char × List (String × List Section)) → Option (List Section)
  | [] => none
  | (_, gtypes) :: rest =>
    match tryGroup selected gtypes with
    | some gs => if gs.isEmpty then tryGroups selected rest else some gs
    | none => tryGroups selected rest

/-- Embeds `views.select_valid_sections`.  `random.shuffle` permutes the course
list and each course's group list; the permutation chosen is modelled as
an explicit `shuffle` parameter, so every reachable output of the Python
function is the output for some such parameter. -/
def selectValidSections (shuffle : {α : Type} → List α → List α)
    (available : List Section) : List Section :=
  (shuffle (buildCourses available)).foldl
    (fun selected ci =>
      match tryGroups selected (shuffle ci.2) with
      | some gs => selected ++ gs
      | none => selected)
    []

/-- The identity permutation: one possible behaviour of `random.shuffle`. -/
def idShuffle : {α : Type} → List α → List α := fun l => l

/-! ## Course-data loader (`_load_course_data` and helpers) -/

/-- Python truthiness of an optional string (`None` and `''` are falsy). -/
def strTruthy : Option String → Bool
  | none => false
  | some v => v ≠ ""

/-- Python `a or b` on optional strings. -/
def pyOrStr (a b : Option String) : Option String := if strTruthy a then a else b

/-- Python `x.get(k1) or x.get(k2) or ... or ''`: first truthy value, else `''`. -/
def firstTruthyStr (l : List (Option String)) : String :=
  match l.find? strTruthy with
  | some (some v) => v
  | _ => ""

/-- Truthiness of a raw status value. -/
def statusTruthy : Option StatusV → Bool
  | none => false
  | some (.b v) => v
  | some (.s v) => v ≠ ""

/-- Python `a or b` on raw status values (returns the second when the first is falsy). -/
def pyOrStatus (a b : Option StatusV) : Option StatusV := if statusTruthy a then a else b

/-- Truthiness of a days value. -/
def daysValTruthy : Option DaysInput → Bool
  | none => false
  | some (.str s) => s ≠ ""
  | some (.list l) => !l.isEmpty

/-- The value of a `time`/`hours` field inside a `schedule` dict: a string
or a list of strings. -/
inductive TVal where
  | s (v : String)
  | l (v : List String)
deriving DecidableEq, Repr

/-- Truthiness of a time value. -/
def tvalTruthy : Option TVal → Bool
  | none => false
  | some (.s v) => v ≠ ""
  | some (.l v) => !v.isEmpty

/-- A `schedule` field: either a plain string or a sub-dict with
`days`/`day`/`time`/`hours` keys (absent keys are `none`). -/
inductive SchedBlob where
  | str (s : String)
  | obj (days : Option DaysInput) (day : Option DaysInput)
        (time : Option TVal) (hours : Option TVal)
deriving DecidableEq, Repr

/-- Truthiness of a schedule value (`None`, `''` and `{}` are falsy; a
dict with keys is truthy — the `obj` constructor models a non-empty dict). -/
def schedTruthy : Option SchedBlob → Bool
  | none => false
  | some (.str s) => s ≠ ""
  | some (.obj _ _ _ _) => true

/-- One raw section dict as found in the scraped JSON; every key the
loader reads is a field (`none` = key absent or `null`).  `'section'` and
`'open'` clash with Lean syntax and are the `sectionF`/`openF` fields. -/
structure RawSection where
  courseCode : Option String := none
  code : Option String := none
  course_code : Option String := none
  sectionF : Option String := none
  status : Option StatusV := none
  availability : Option StatusV := none
  openStatus : Option StatusV := none
  openF : Option StatusV := none
  schedule : Option SchedBlob := none
  days : Option DaysInput := none
  day : Option DaysInput := none
  time : Option String := none
  hours : Option String := none
  instructor : Option String := none
  location : Option String := none
  courseTitle : Option String := none
  title : Option String := none
  name : Option String := none
deriving DecidableEq, Repr

/-- JSON rendering of a days value, as `json.dumps` would emit it
(string escaping is not modelled; the scraped values contain none). -/
def dumpDays : DaysInput → String
  | .str s => "\"" ++ s ++ "\""
  | .list l => "[" ++ String.intercalate ", " (l.map (fun x => "\"" ++ x ++ "\"")) ++ "]"

/-- JSON rendering of a time value. -/
def dumpTVal : TVal → String
  | .s v => "\"" ++ v ++ "\""
  | .l v => "[" ++ String.intercalate ", " (v.map (fun x => "\"" ++ x ++ "\"")) ++ "]"

/-- Python `json.dumps(schedule_dict)`: keys in dict insertion order, modelled
as the fixed field order `days`, `day`, `time`, `hours`. -/
def dumpSched : SchedBlob → String
  | .str s => "\"" ++ s ++ "\""
  | .obj days day time hours =>
    let fields :=
      (match days with | some d => ["\"days\": " ++ dumpDays d] | none => []) ++
      (match day with | some d => ["\"day\": " ++ dumpDays d] | none => []) ++
      (match time with | some t => ["\"time\": " ++ dumpTVal t] | none => []) ++
      (match hours with | some t => ["\"hours\": " ++ dumpTVal t] | none => [])
    "\x7b" ++ String.intercalate ", " fields ++ "\x7d"

/-- Render a matched `H:MM` clock group back to a string. -/
def clockGroupStr (h m : List Char) : String := String.mk h ++ ":" ++ String.mk m

/-- The regex fallback of `_extract_time_from_schedule`: first
`(\d{1,2}:\d{2})\s*-\s*(\d{1,2}:\d{2})` match rendered as `"g1-g2"` (the
second, whitespace-free pattern matches a subset of the first, so it can
only fire when the first did). -/
def timeRegexExtract (s : String) : String :=
  match searchTimeRange ':' s.toList with
  | some (h1, m1, h2, m2) => clockGroupStr h1 m1 ++ "-" ++ clockGroupStr h2 m2
  | none => ""

/-- Embeds `ScheduleService._extract_time_from_schedule`. -/
def extractTimeFromSchedule (blob : Option SchedBlob) : String :=
  if !schedTruthy blob then ""
  else match blob with
    | some (.obj days day time hours) =>
        let t : TVal := -- `schedule_input.get('time') or schedule_input.get('hours') or ''`
          if tvalTruthy time then time.getD (.s "")
          else if tvalTruthy hours then hours.getD (.s "")
          else .s ""
        (match t with
         | .s ts => if strIn "-" ts then removeSpaces ts
                    else timeRegexExtract (dumpSched (.obj days day time hours))
         | .l (x :: _) =>
             let s2 := removeSpaces x
             if strIn "-" s2 then s2
             else timeRegexExtract (dumpSched (.obj days day time hours))
         | .l [] => timeRegexExtract (dumpSched (.obj days day time hours)))
    | some (.str s) => timeRegexExtract s
    | none => ""

/-- The two-letter day abbreviations scanned by `_extract_days_from_schedule`. -/
def twoLetterDayMap : List (String × String) :=
  [("Mo", "Monday"), ("Tu", "Tuesday"), ("We", "Wednesday"),
   ("Th", "Thursday"), ("Fr", "Friday"), ("Sa", "Saturday"), ("Su", "Sunday")]

/-- Embeds `ScheduleService._extract_days_from_schedule`. -/
def extractDaysFromSchedule (blob : Option SchedBlob) : List String :=
  if !schedTruthy blob then []
  else match blob with
    | some (.obj days day _ _) =>
        let daysVal : DaysInput := -- `.get('days') or .get('day') or []`
          if daysValTruthy days then days.getD (.list [])
          else if daysValTruthy day then day.getD (.list [])
          else .list []
        parseDaysString daysVal
    | some (.str s) =>
        twoLetterDayMap.foldl
          (fun acc p => if strIn p.1 s then acc ++ [p.2] else acc) []
    | none => []

/-- Embeds `ScheduleService._determine_section_type`. -/
def determineSectionType (sectionCode : String) : String :=
  if sectionCode = "" then "LEC"
  else
    let u := pyUpper sectionCode
    if strIn "LAB" u then "LAB"
    else if strIn "DGD" u then "DGD"
    else if strIn "TUT" u then "TUT"
    else if strIn "SEM" u then "SEM"
    else if strIn "LEC" u then "LEC"
    else if strIn "WRK" u || strIn "WORKSHOP" u then "WRK"
    else if strIn "STU" u || strIn "STUDIO" u then "STU"
    else "LEC"

/-- The open/closed derivation the loader performs on the raw status
value (identical inline code in `_load_course_data` and
`_load_course_data_from_single_file`): a boolean is taken as-is; for a
string, the open-token check runs first and the closed-token check
second, so closed tokens win. -/
def computeIsOpen (rawStatus : Option StatusV) : Bool :=
  match rawStatus with
  | some (.b v) => v
  | some (.s str) =>
      let statusStr := pyLower (pyStrip str)
      let isOpen := anyTokIn ["open", "available", "spaces", "spots"] statusStr
      if anyTokIn ["closed", "full", "waitlist"] statusStr then false else isOpen
  | none => false

/-- Python `section.get('status') or section.get('availability') or
section.get('openStatus') or section.get('open')`: first truthy value,
else the last (possibly falsy) one. -/
def rawStatusOf (sec : RawSection) : Option StatusV :=
  pyOrStatus (pyOrStatus (pyOrStatus sec.status sec.availability) sec.openStatus) sec.openF

/-- Python `raw_status if raw_status is not None else ''`. -/
def statusFieldOf (rawStatus : Option StatusV) : StatusV := rawStatus.getD (.s "")

/-- The `schedule_blob` used by `_load_course_data`: the section's own
`schedule` when truthy, else the synthetic
`{'days': get('days') or get('day') or '', 'time': get('time') or get('hours') or ''}`. -/
def scheduleBlobOf (sec : RawSection) : Option SchedBlob :=
  if schedTruthy sec.schedule then sec.schedule
  else
    some (.obj
      (some (if daysValTruthy sec.days then sec.days.getD (.str "")
             else if daysValTruthy sec.day then sec.day.getD (.str "")
             else .str ""))
      none
      (some (if strTruthy sec.time then .s ((sec.time).getD "")
             else if strTruthy sec.hours then .s ((sec.hours).getD "")
             else .s ""))
      none)

/-- The `section_info` dict built per section by `_load_course_data`. -/
def sectionInfoOf (courseCode : String) (sec : RawSection) : Section :=
  let rawStatus := rawStatusOf sec
  let blob := scheduleBlobOf sec
  { code := courseCode,
    sectionLabel := sec.sectionF.getD "",
    time := extractTimeFromSchedule blob,
    days := .list (extractDaysFromSchedule blob),
    instructor := sec.instructor.getD "",
    location := sec.location.getD "",
    courseTitle := firstTruthyStr [sec.courseTitle, sec.title, sec.name],
    stype := determineSectionType (sec.sectionF.getD ""),
    status := statusFieldOf rawStatus,
    is_open := computeIsOpen rawStatus }

/-- Group a term's raw sections by normalized course code, dropping
sections with an empty code (main-file shape). -/
def loadFromTermData (termData : List RawSection) : List (String × List Section) :=
  termData.foldl
    (fun acc sec =>
      let rawCode := firstTruthyStr [sec.courseCode, sec.code, sec.course_code]
      let courseCode := pyUpper (removeSpaces rawCode)
      if courseCode = "" then acc
      else updAssoc courseCode (fun ss => ss ++ [sectionInfoOf courseCode sec]) [] acc)
    []

/-- What reading a path yields: the file may be absent, unreadable or not
valid JSON (`malformed`), a JSON object keyed by term label, or a flat
JSON array of sections. -/
inductive ReadResult where
  | missing
  | malformed
  | okDict (d : List (String × List RawSection))
  | okList (l : List RawSection)
deriving DecidableEq

/-- The file system, as the loader sees it. -/
abbrev FS : Type := String → ReadResult

/-- Python `path.exists()`. -/
def fileExists (fs : FS) (p : String) : Bool :=
  match fs p with
  | .missing => false
  | _ => true

/-- The candidate locations tried by `_get_course_data_path`, in priority
order (relative paths abbreviate the `Path(__file__)`-derived ones). -/
def courseDataPaths : List String :=
  ["scrapers/data/all_courses_by_term.json",
   "backend/api/data/all_courses_by_term.json",
   "frontend/public/api/data/all_courses_by_term.json",
   "/app/backend/api/data/all_courses_by_term.json",
   "/app/scrapers/data/all_courses_by_term.json"]

/-- Embeds `ScheduleService._get_course_data_path`: first existing candidate,
else the first candidate. -/
def getCourseDataPath (fs : FS) : String :=
  match courseDataPaths.find? (fileExists fs) with
  | some p => p
  | none => courseDataPaths.headD ""

/-- Embeds `ScheduleService._map_term_to_kairoll_format`: `term.strip().title()`. -/
def mapTermToKairollFormat (term : String) : String := pyTitle (pyStrip term)

/-- Python `re.search(r"(20\d{2})", k)`: the first embedded year, else 0. -/
def extractYear (k : String) : Nat := go k.toList
where
  go : List Char → Nat
    | a :: b :: c :: d :: rest =>
        if a = '2' && b = '0' && c.isDigit && d.isDigit then
          2000 + (c.toNat - '0'.toNat) * 10 + (d.toNat - '0'.toNat)
        else go (b :: c :: d :: rest)
    | _ => 0

/-- Python `sorted(keys, key=extract_year, reverse=True)[0]`: by stability, the
first element carrying the maximal embedded year. -/
def firstMaxByYear (l : List String) : Option String :=
  l.foldl
    (fun acc k =>
      match acc with
      | none => some k
      | some b => if extractYear k > extractYear b then some k else acc)
    none

/-- Whitespace-run split (Python `str.split()` with no argument). -/
def pySplitWs (s : String) : List String :=
  (s.toList.foldr
    (fun c (acc : List (List Char)) =>
      if c.isWhitespace then
        match acc with
        | [] :: _ => acc
        | _ => [] :: acc
      else
        match acc with
        | t :: rest => (c :: t) :: rest
        | [] => [[c]]) []).filterMap
    (fun t => if t.isEmpty then none else some (String.mk t))

/-- The per-term file slug (`fall_2025` style, else lowercased with
spaces replaced by underscores). -/
def slugOf (term : String) : String :=
  let label := mapTermToKairollFormat term
  match pySplitWs label with
  | [p0, p1] =>
      if p0 ≠ "" && p1.toList.all Char.isDigit && p1 ≠ "" then
        pyLower p0 ++ "_" ++ p1
      else String.mk ((pyLower term).toList.map (fun c => if c = ' ' then '_' else c))
  | _ => String.mk ((pyLower term).toList.map (fun c => if c = ' ' then '_' else c))

/-- Candidate per-term file locations of `_load_course_data_from_single_file`. -/
def singleFilePaths (slug : String) : List String :=
  ["scrapers/data/all_courses_" ++ slug ++ ".json",
   "backend/api/data/all_courses_" ++ slug ++ ".json",
   "frontend/public/all_courses_" ++ slug ++ ".json",
   "/app/scrapers/data/all_courses_" ++ slug ++ ".json",
   "/app/backend/api/data/all_courses_" ++ slug ++ ".json"]

/-- The `section_info` built by `_load_course_data_from_single_file`
(this shape reads only the `courseCode`, `section`, `schedule`,
`courseTitle`, `instructor`, `location` and status keys). -/
def sectionInfoSingleOf (courseCode : String) (sec : RawSection) : Section :=
  let rawStatus := rawStatusOf sec
  { code := courseCode,
    sectionLabel := sec.sectionF.getD "",
    time := extractTimeFromSchedule sec.schedule,
    days := .list (extractDaysFromSchedule sec.schedule),
    instructor := sec.instructor.getD "",
    location := sec.location.getD "",
    courseTitle := sec.courseTitle.getD "",
    stype := determineSectionType (sec.sectionF.getD ""),
    status := statusFieldOf rawStatus,
    is_open := computeIsOpen rawStatus }

/-- Normalize a flat per-term section list into the course map. -/
def normalizeSingle (sections : List RawSection) : List (String × List Section) :=
  sections.foldl
    (fun acc sec =>
      let courseCode := pyUpper (removeSpaces (sec.courseCode.getD ""))
      if courseCode = "" then acc
      else updAssoc courseCode (fun ss => ss ++ [sectionInfoSingleOf courseCode sec]) [] acc)
    []

/-- Embeds `ScheduleService._load_course_data_from_single_file`: first existing
per-term file; a missing file, unparseable JSON, a non-list shape or an
empty list all fall to `{}` via the surrounding `try/except` and the
`if not data` check. -/
def loadCourseDataFromSingleFile (fs : FS) (term : String) : List (String × List Section) :=
  match (singleFilePaths (slugOf term)).find? (fileExists fs) with
  | none => []
  | some p =>
    match fs p with
    | .okList [] => []           -- `if not data: return {}`
    | .okList sections => normalizeSingle sections
    | .okDict [] => []           -- falsy dict: `if not data`
    | .okDict _ => []            -- dict iteration yields strings; `.get` raises; caught
    | .malformed => []           -- `json.load` raised; caught
    | .missing => []             -- unreachable after the existence check


/-- Embeds `ScheduleService._load_course_data`: read the best path; any raised
error (missing file, malformed JSON, non-dict JSON) is caught and yields
`{}`; an absent or falsy term entry falls back to the per-term file. -/
def loadCourseData (fs : FS) (term : String) : List (String × List Section) :=
  match fs (getCourseDataPath fs) with
  | .missing => []        -- `open()` raised; caught
  | .malformed => []      -- `json.load` raised; caught
  | .okList _ => []       -- `.keys()` on a list raised; caught
  | .okDict kairollData =>
    let keys := kairollData.map Prod.fst
    let matching1 := keys.filter (fun k => strIn (pyLower term) (pyLower k))
    let matchingKeys :=
      if matching1.isEmpty then
        keys.filter (fun k => pyLower k = pyLower (mapTermToKairollFormat term))
      else matching1
    let termData : Option (List RawSection) :=
      match firstMaxByYear matchingKeys with
      | some bk => (kairollData.find? (fun p => p.1 = bk)).map Prod.snd
      | none => none
    match termData with
    | some (sec :: rest) => loadFromTermData (sec :: rest)
    | _ =>
      let singleTermSections := loadCourseDataFromSingleFile fs term
      if singleTermSections.isEmpty then [] else singleTermSections

/-! ## Fuzzy course matcher (`find_sections_for_courses`) -/

/-- Embeds `ScheduleService._normalize_course_code`. -/
def normalizeCourseCode (courseCode : String) : String :=
  if courseCode = "" then "" else pyUpper (removeSpaces courseCode)

/-- Embeds `ScheduleService._add_space_to_course_code`: insert a space between
the leading letters and the rest (`GNG2101 -> GNG 2101`). -/
def addSpaceToCourseCode (courseCode : String) : String :=
  if courseCode = "" || courseCode.length < 4 then courseCode
  else
    let cs := courseCode.toList
    let i := (cs.takeWhile Char.isAlpha).length
    if 0 < i && i < cs.length then
      String.mk (cs.take i) ++ " " ++ String.mk (cs.drop i)
    else courseCode

/-- Embeds `extract_subject_and_number`: leading letters before any digit form
the subject, all digits form the number; other characters are ignored. -/
def extractSubjectAndNumber (code : String) : String × Option Nat :=
  let r := (normalizeCourseCode code).toList.foldl
    (fun (acc : List Char × List Char) ch =>
      if ch.isAlpha && acc.2.isEmpty then (acc.1 ++ [ch], acc.2)
      else if ch.isDigit then (acc.1, acc.2 ++ [ch])
      else acc)
    ([], [])
  (String.mk r.1, if r.2.isEmpty then none else some (digitsToNat r.2))

/-- The `subject -> [(code, number)]` helper map, in insertion order. -/
def subjectToCodes (availableCodes : List String) : List (String × List (String × Option Nat)) :=
  availableCodes.foldl
    (fun acc avail =>
      let sn := extractSubjectAndNumber avail
      if sn.1 = "" then acc
      else updAssoc sn.1 (fun l => l ++ [(avail, sn.2)]) [] acc)
    []

/-- A candidate's score `(abs number diff, 0 if exact code else 1)`;
`(10^8, tie)` when either number is missing. -/
def candScore (normalizedCode : String) (targetNumber : Option Nat) (cand : String × Option Nat) :
    Nat × Nat :=
  match targetNumber, cand.2 with
  | some tn, some cn => (max tn cn - min tn cn, if cand.1 = normalizedCode then 0 else 1)
  | _, _ => (10 ^ 8, if cand.1 = normalizedCode then 0 else 1)

/-- Strict lexicographic comparison of scores (`score < best_score`). -/
def scoreLt (a b : Nat × Nat) : Bool := a.1 < b.1 || (a.1 = b.1 && a.2 < b.2)

/-- One iteration of the fuzzy matcher's candidate loop
(`if score < best_score: best_score, best_code = score, cand_code`). -/
def fuzzyStep (normalizedCode : String) (targetNumber : Option Nat)
    (acc : Option String × Nat × Nat) (cand : String × Option Nat) :
    Option String × Nat × Nat :=
  if scoreLt (candScore normalizedCode targetNumber cand) acc.2 then
    (some cand.1, candScore normalizedCode targetNumber cand)
  else acc

/-- The candidate fold of the fuzzy matcher: the best (strictly smaller)
score wins, so ties keep the earliest candidate in enumeration order. -/
def fuzzyPick (normalizedCode : String) (targetNumber : Option Nat)
    (cands : List (String × Option Nat)) : Option String :=
  (cands.foldl (fuzzyStep normalizedCode targetNumber) (none, (10 ^ 9, 10 ^ 9))).1

/-- Python dict assignment `result[k] = v`: replace in place, else append. -/
def dictSet (m : List (String × α)) (k : String) (v : α) : List (String × α) :=
  if m.any (fun p => p.1 = k) then m.map (fun p => if p.1 = k then (k, v) else p)
  else m ++ [(k, v)]

/-- Resolve one requested course code against the loaded map: verbatim
(raw, normalized, spaced) lookup first, then the same-subject fuzzy pick,
then the first available code containing the first three characters of
the normalized request, else an empty section list. -/
def findSectionsForOneCourse (courseSections : List (String × List Section))
    (availableCodes : List String)
    (subjMap : List (String × List (String × Option Nat))) (courseCode : String) :
    List Section :=
  let normalizedCode := normalizeCourseCode courseCode
  let spacedCode := addSpaceToCourseCode courseCode
  let searchCodes := [courseCode, normalizedCode, spacedCode]
  match searchCodes.findSome?
      (fun sc => (courseSections.find? (fun p => p.1 = sc)).map Prod.snd) with
  | some sections => sections
  | none =>
    let sn := extractSubjectAndNumber courseCode
    let bestCode : Option String :=
      if sn.1 ≠ "" then
        match (subjMap.find? (fun p => p.1 = sn.1)).map Prod.snd with
        | some cands => fuzzyPick normalizedCode sn.2 cands
        | none => none
      else none
    let bestCode2 : Option String :=
      match bestCode with
      | some b => some b
      | none =>
        let first3 := String.mk ((normalizeCourseCode courseCode).toList.take 3)
        (availableCodes.filter (fun code => strIn first3 code)).head?
    match bestCode2 with
    | some b =>
      match courseSections.find? (fun p => p.1 = b) with
      | some pr => pr.2
      | none => []
    | none => []

/-- Embeds `ScheduleService.find_sections_for_courses`: an entry per requested
code, found verbatim, fuzzily, or as an empty list — never an exception. -/
def findSectionsForCourses (fs : FS) (courseCodes : List String) (term : String) :
    List (String × List Section) :=
  let courseSections := loadCourseData fs term
  let availableCodes := courseSections.map Prod.fst
  let subjMap := subjectToCodes availableCodes
  courseCodes.foldl
    (fun result courseCode =>
      dictSet result courseCode
        (findSectionsForOneCourse courseSections availableCodes subjMap courseCode))
    []

/-! ## Calendar materializer (`add_sections_to_calendar`, `clear_user_schedule`) -/

/-- A calendar date (year, month, day). -/
structure TDate where
  year : Nat
  month : Nat
  dayOfMonth : Nat
deriving DecidableEq, Repr

/-- Embeds `ScheduleService._get_term_dates`. -/
def getTermDates (term : String) (year : Nat) : TDate × TDate :=
  if pyLower term = "fall" then (⟨year, 9, 3⟩, ⟨year, 12, 2⟩)
  else if pyLower term = "winter" then (⟨year + 1, 1, 12⟩, ⟨year + 1, 4, 15⟩)
  else if pyLower term = "spring" || pyLower term = "summer" then
    (⟨year + 1, 5, 5⟩, ⟨year + 1, 7, 29⟩)
  else (⟨year, 9, 3⟩, ⟨year, 12, 2⟩)

/-- A persisted `UserCalendar` row, with the fields the service writes. -/
structure CalRecord where
  user : String
  title : String
  start_time : Tm
  end_time : Tm
  day_of_week : String
  start_date : TDate
  end_date : TDate
  description : String
  professor : String
  location : String
  recurrence_pattern : String
  theme : String
deriving DecidableEq, Repr

/-- The calendar store is a list of rows; `create` appends. -/
abbrev CalendarDB : Type := List CalRecord

/-- The filter of `clear_user_schedule`: this user's weekly rows whose
start and end dates equal the term's bounds. -/
def clearMatches (user : String) (termStart termEnd : TDate) (r : CalRecord) : Bool :=
  r.user = user && r.start_date = termStart && r.end_date = termEnd &&
    r.recurrence_pattern = "weekly"

/-- Embeds `ScheduleService.clear_user_schedule`: delete every matching row,
returning the count removed and the remaining store. -/
def clearUserSchedule (user : String) (term : String) (year : Nat) (db : CalendarDB) :
    Nat × CalendarDB :=
  let td := getTermDates term year
  ((db.filter (clearMatches user td.1 td.2)).length,
   db.filter (fun r => !clearMatches user td.1 td.2 r))

/-- Create one row per meeting day; a failing `UserCalendar.objects.create`
raises, the per-course `except` catches it, and the rest of that course's
days are skipped (rows already created stay). -/
def addDays (failOn : CalRecord → Bool) (mk : String → CalRecord) :
    List String → Nat × CalendarDB → Nat × CalendarDB
  | [], acc => acc
  | dayName :: rest, (n, db) =>
    let r := mk dayName
    if failOn r then (n, db)
    else addDays failOn mk rest (n + 1, db ++ [r])

/-- The `UserCalendar.objects.create` record built for one meeting day of
one selected course section. -/
def mkCalRecord (user : String) (td : TDate × TDate) (courseCode : String)
    (sec : Section) (times : Tm × Tm) (dayName : String) : CalRecord :=
  { user := user,
    title := courseCode ++ " - " ++ sec.title.getD "Course",
    start_time := times.1,
    end_time := times.2,
    day_of_week := dayName,
    start_date := td.1,
    end_date := td.2,
    description := "Section: " ++ sec.sectionLabel ++ "\n" ++
      "Location: " ++ sec.location,
    professor := sec.instructor,
    location := sec.location,
    recurrence_pattern := "weekly",
    theme := "midnight-light-blue" }

/-- One iteration of the per-course loop of `add_sections_to_calendar`:
skip unselected courses and unparseable schedules, otherwise create one
record per meeting day. -/
def addCourseStep (failOn : CalRecord → Bool) (user : String) (td : TDate × TDate)
    (acc : Nat × CalendarDB) (cs : String × Option Section) : Nat × CalendarDB :=
  match cs.2 with
  | none => acc
  | some sec =>
    match parseTimeString sec.time with
    | none => acc    -- `if not times or not days: continue`
    | some times =>
      let days := parseDaysString sec.days
      if days.isEmpty then acc
      else addDays failOn (mkCalRecord user td cs.1 sec times) days acc

/-- Embeds `ScheduleService.add_sections_to_calendar`: for each selected section
whose time and days parse, one weekly row per meeting day over the term's
date range.  `failOn` says which `create` calls the store rejects; a
failure is caught per course and the run continues with the next course. -/
def addSectionsToCalendar (failOn : CalRecord → Bool) (user : String)
    (selectedSections : List (String × Option Section)) (term : String) (year : Nat)
    (db : CalendarDB) : Nat × CalendarDB :=
  selectedSections.foldl (addCourseStep failOn user (getTermDates term year)) (0, db)

/-- The clear-then-insert sequence performed per (user, term) at the
call sites (`views.py` runs `clear_user_schedule` immediately before
`add_sections_to_calendar`). -/
def materializeSchedule (failOn : CalRecord → Bool) (user : String)
    (selectedSections : List (String × Option Section)) (term : String) (year : Nat)
    (db : CalendarDB) : Nat × CalendarDB :=
  addSectionsToCalendar failOn user selectedSections term year
    (clearUserSchedule user term year db).2


/-! # Verification

General-purpose lemmas about the embedded list and sorting machinery,
followed by one theorem per specified property.
-/

/-! ## Helper lemmas -/

theorem mem_insertSorted (le : α → α → Bool) (x z : α) (l : List α) :
    z ∈ insertSorted le x l ↔ z = x ∨ z ∈ l := by
  induction l with
  | nil => simp [insertSorted]
  | cons y ys ih =>
    simp only [insertSorted]
    by_cases h : le x y = true
    · simp [h]
    · simp only [Bool.not_eq_true] at h
      simp [h, ih]
      tauto

theorem mem_stableSort (le : α → α → Bool) (z : α) (l : List α) :
    z ∈ stableSort le l ↔ z ∈ l := by
  induction l with
  | nil => simp [stableSort]
  | cons y ys ih => simp [stableSort, mem_insertSorted, ih]

theorem pairwise_insertSorted (le : α → α → Bool)
    (htrans : ∀ a b c, le a b = true → le b c = true → le a c = true)
    (htot : ∀ a b, le a b = true ∨ le b a = true)
    (x : α) (l : List α) (h : l.Pairwise (fun a b => le a b = true)) :
    (insertSorted le x l).Pairwise (fun a b => le a b = true) := by
  induction l with
  | nil => simp [insertSorted]
  | cons y ys ih =>
    rcases h with _ | ⟨hy, hys⟩
    simp only [insertSorted]
    by_cases hxy : le x y = true
    · rw [if_pos hxy]
      refine List.Pairwise.cons ?_ (List.Pairwise.cons hy hys)
      intro z hz
      rcases List.mem_cons.mp hz with hz | hz
      · subst hz; exact hxy
      · exact htrans x y z hxy (hy z hz)
    · rw [if_neg hxy]
      refine List.Pairwise.cons ?_ (ih hys)
      intro z hz
      rcases (mem_insertSorted le x z ys).mp hz with hz | hz
      · rw [hz]
        rcases htot x y with h1 | h1
        · exact absurd h1 hxy
        · exact h1
      · exact hy z hz

theorem pairwise_stableSort (le : α → α → Bool)
    (htrans : ∀ a b c, le a b = true → le b c = true → le a c = true)
    (htot : ∀ a b, le a b = true ∨ le b a = true)
    (l : List α) : (stableSort le l).Pairwise (fun a b => le a b = true) := by
  induction l with
  | nil => simp [stableSort]
  | cons y ys ih => exact pairwise_insertSorted le htrans htot y (stableSort le ys) ih

theorem natLexLe_trans (f g : α → Nat) (a b c : α)
    (h1 : natLexLe f g a b = true) (h2 : natLexLe f g b c = true) :
    natLexLe f g a c = true := by
  simp only [natLexLe, Bool.or_eq_true, Bool.and_eq_true, decide_eq_true_eq] at *
  omega

theorem natLexLe_total (f g : α → Nat) (a b : α) :
    natLexLe f g a b = true ∨ natLexLe f g b a = true := by
  simp only [natLexLe, Bool.or_eq_true, Bool.and_eq_true, decide_eq_true_eq]
  omega

theorem find?_of_exists (p : α → Bool) (l : List α) (h : ∃ x ∈ l, p x = true) :
    ∃ y, l.find? p = some y ∧ p y = true := by
  induction l with
  | nil => simp at h
  | cons a as ih =>
    by_cases ha : p a = true
    · exact ⟨a, by simp [List.find?, ha], ha⟩
    · simp only [Bool.not_eq_true] at ha
      rcases h with ⟨x, hx, hpx⟩
      rcases List.mem_cons.mp hx with hx | hx
      · subst hx; rw [hpx] at ha; cases ha
      · rcases ih ⟨x, hx, hpx⟩ with ⟨y, hy, hpy⟩
        exact ⟨y, by simp [List.find?, ha, hy], hpy⟩

/-! ## The conflict predicate on a pair of sections -/

theorem conflicts_nil (s : Section) : sectionConflictsWithSchedule s [] = false := by
  unfold sectionConflictsWithSchedule
  cases parseTimeString s.time with
  | none => rfl
  | some t => by_cases h : (parseDaysString s.days).isEmpty <;> simp [h]

/-- Python `_section_conflicts_with_schedule` against a list is the disjunction of
the pairwise checks (the guard clauses distribute over the loop). -/
theorem conflicts_any (s : Section) (l : List Section) :
    sectionConflictsWithSchedule s l =
      l.any (fun y => sectionConflictsWithSchedule s [y]) := by
  unfold sectionConflictsWithSchedule
  cases parseTimeString s.time with
  | none => simp
  | some t =>
    by_cases h : (parseDaysString s.days).isEmpty
    · simp [h]
    · simp only [h, Bool.false_eq_true, if_neg, if_false]
      induction l with
      | nil => rfl
      | cons y ys ih => simp_all [List.any_cons]

/-- The pairwise conflict check, unfolded. -/
theorem conflicts_pair_iff (a b : Section) :
    sectionConflictsWithSchedule a [b] = true ↔
      ∃ ta tb : Tm × Tm,
        parseTimeString a.time = some ta ∧ parseTimeString b.time = some tb ∧
        (∃ d, d ∈ parseDaysString a.days ∧ d ∈ parseDaysString b.days) ∧
        ¬(Tm.leB ta.2 tb.1 = true ∨ Tm.leB tb.2 ta.1 = true) := by
  unfold sectionConflictsWithSchedule
  cases hpa : parseTimeString a.time with
  | none => simp [hpa]
  | some ta =>
    cases hpb : parseTimeString b.time with
    | none =>
      by_cases h : (parseDaysString a.days).isEmpty <;>
        simp [h, hpb, List.any_cons]
    | some tb =>
      by_cases h : (parseDaysString a.days).isEmpty
      · constructor
        · intro hfalse; simp [h] at hfalse
        · rintro ⟨ta2, tb2, hta, htb, ⟨d, hda, hdb⟩, _⟩
          rw [List.isEmpty_iff] at h
          rw [h] at hda
          cases hda
      · simp only [h, Bool.false_eq_true, if_false, List.any_cons, List.any_nil,
          Bool.or_false, hpb]
        by_cases hb : (parseDaysString b.days).isEmpty
        · rw [List.isEmpty_iff] at hb
          simp [hb]
        · simp only [hb, Bool.false_eq_true, if_false, Bool.and_eq_true,
            List.any_eq_true, timesConflict]
          constructor
          · rintro ⟨⟨d, hda, hdb⟩, hover⟩
            refine ⟨ta, tb, rfl, rfl, ⟨d, hda, List.elem_iff.mp hdb⟩, ?_⟩
            simp only [Bool.not_eq_true', Bool.or_eq_false_iff] at hover
            rintro (h1 | h1) <;> simp [h1] at hover
          · rintro ⟨ta2, tb2, hta2, htb2, ⟨d, hda, hdb⟩, hover⟩
            injection hta2 with hta2
            injection htb2 with htb2
            subst hta2; subst htb2
            refine ⟨⟨d, hda, List.elem_iff.mpr hdb⟩, ?_⟩
            simp only [Bool.not_eq_true', Bool.or_eq_false_iff]
            push_neg at hover
            exact ⟨Bool.not_eq_true _ ▸ hover.1, Bool.not_eq_true _ ▸ hover.2⟩

/-- Symmetry of the pairwise conflict check. -/
theorem conflicts_pair_comm (a b : Section) :
    sectionConflictsWithSchedule a [b] = sectionConflictsWithSchedule b [a] := by
  rw [Bool.eq_iff_iff, conflicts_pair_iff, conflicts_pair_iff]
  constructor
  · rintro ⟨ta, tb, h1, h2, ⟨d, h3, h4⟩, h5⟩
    exact ⟨tb, ta, h2, h1, ⟨d, h4, h3⟩, fun h => h5 h.symm⟩
  · rintro ⟨tb, ta, h1, h2, ⟨d, h3, h4⟩, h5⟩
    exact ⟨ta, tb, h2, h1, ⟨d, h4, h3⟩, fun h => h5 h.symm⟩



/-! ## Claim: conflict detector characterization (spec 4.3) -/

/-- Boundary pair: same day, one ends exactly when the other starts. -/
def boundaryEndsAt10 : Section := { time := "08:30 - 10:00", days := .list ["Monday"] }

/-- Boundary pair: same day, starts at 10:00. -/
def boundaryStartsAt10 : Section := { time := "10:00 - 11:30", days := .list ["Monday"] }

/-- C2.  The conflict detector returns true iff both sections' times and
days parse, their day sets intersect, and the intervals overlap in the
sense `NOT (a.end <= b.start OR b.end <= a.start)`; in particular a
section ending at 10:00 and one starting at 10:00 on the same day do not
conflict, and an unparseable side forces `false`. -/
theorem conflict_detector_spec :
    (∀ a b : Section,
      sectionConflictsWithSchedule a [b] = true ↔
        ∃ ta tb : Tm × Tm,
          parseTimeString a.time = some ta ∧ parseTimeString b.time = some tb ∧
          (∃ d, d ∈ parseDaysString a.days ∧ d ∈ parseDaysString b.days) ∧
          ¬(Tm.leB ta.2 tb.1 = true ∨ Tm.leB tb.2 ta.1 = true))
  ∧ sectionConflictsWithSchedule boundaryEndsAt10 [boundaryStartsAt10] = false := by
  refine ⟨fun a b => conflicts_pair_iff a b, ?_⟩
  decide

/-- C2 witness: the characterization instantiated at an overlapping pair. -/
theorem conflict_detector_spec_witness :
    sectionConflictsWithSchedule
      { time := "09:00 - 10:30", days := .list ["Monday"] }
      [{ time := "09:30 - 11:00", days := .list ["Monday"] }] = true := by
  exact (conflict_detector_spec.1 _ _).mpr
    ⟨(⟨9, 0⟩, ⟨10, 30⟩), (⟨9, 30⟩, ⟨11, 0⟩), by decide, by decide,
     ⟨"Monday", by decide, by decide⟩, by decide⟩

/-! ## Claim: conflict symmetry -/

/-- C9.  `conflicts(a, b) == conflicts(b, a)` for every pair of candidate
sections, including unparseable ones. -/
theorem conflict_symmetry (a b : Section) :
    sectionConflictsWithSchedule a [b] = sectionConflictsWithSchedule b [a] :=
  conflicts_pair_comm a b

/-! ## Claim: closed status tokens take precedence -/

/-- C10.  When the raw status string contains both an open token and a
closed token, both loader shapes record `is_open = false`, because the
closed-token check runs after the open-token check. -/
theorem closed_tokens_win (cc : String) (sec : RawSection) (st : String)
    (hraw : rawStatusOf sec = some (.s st))
    (hopen : anyTokIn ["open", "available", "spaces", "spots"] (pyLower (pyStrip st)) = true)
    (hclosed : anyTokIn ["closed", "full", "waitlist"] (pyLower (pyStrip st)) = true) :
    (sectionInfoOf cc sec).is_open = false ∧ (sectionInfoSingleOf cc sec).is_open = false := by
  have h : computeIsOpen (rawStatusOf sec) = false := by
    rw [hraw]
    simp [computeIsOpen, hclosed]
  exact ⟨h, h⟩

/-- C10 witness: status `"Waitlist open"` loads as closed. -/
theorem closed_tokens_win_witness :
    (sectionInfoOf "CSI2110" { status := some (.s "Waitlist open") }).is_open = false ∧
    (sectionInfoSingleOf "CSI2110" { status := some (.s "Waitlist open") }).is_open = false :=
  closed_tokens_win "CSI2110" { status := some (.s "Waitlist open") } "Waitlist open"
    (by decide) (by decide) (by decide)

/-! ## Claim: candidate priority ordering -/

/-- An open in-person candidate with unparseable time: priority 2000. -/
def unparsedCand : Section := { time := "TBA", location := "CRX 308", is_open := true }

/-- An open online candidate starting 17:00: priority 1020 + 1000 = 2020. -/
def lateOnlineCand : Section := { time := "17:00 - 18:00", location := "ONLINE", is_open := true }

/-- C5 counterexample.  The claim says an unparseable-time candidate
"scores effectively infinite and is sorted last"; in the code it scores
2000, so it sorts *before* an equally-open parsed online candidate that
starts after 16:40 (score > 2000). -/
theorem candidate_ordering_claim_counterexample :
    stableSort secSortLe [lateOnlineCand, unparsedCand] = [unparsedCand, lateOnlineCand] ∧
    parseTimeString unparsedCand.time = none ∧
    parseTimeString lateOnlineCand.time = some (⟨17, 0⟩, ⟨18, 0⟩) ∧
    unparsedCand.is_open = lateOnlineCand.is_open ∧
    getSectionPriority unparsedCand = 2000 ∧
    getSectionPriority lateOnlineCand = 2020 := by
  refine ⟨?_, rfl, rfl, rfl, rfl, rfl⟩
  decide

/-- C5 (amended).  The sort places every open candidate before every
closed one; among equal openness it orders by the priority score, which is
start-minutes-since-midnight for a parseable time and the constant 2000
otherwise (not infinity), plus a fixed 1000 penalty when the location
contains ONLINE or TBA. -/
theorem candidate_ordering_amended :
    (∀ l : List Section,
      (stableSort secSortLe l).Pairwise (fun a b => b.is_open = true → a.is_open = true))
  ∧ (∀ l : List Section,
      (stableSort secSortLe l).Pairwise
        (fun a b => a.is_open = b.is_open → getSectionPriority a ≤ getSectionPriority b))
  ∧ (∀ s : Section, parseTimeString s.time = none →
      (strIn "ONLINE" (pyUpper s.location) || strIn "TBA" (pyUpper s.location)) = false →
      getSectionPriority s = 2000)
  ∧ (∀ s : Section, parseTimeString s.time = none →
      (strIn "ONLINE" (pyUpper s.location) || strIn "TBA" (pyUpper s.location)) = true →
      getSectionPriority s = 2000 + 1000) := by
  have hsorted : ∀ l : List Section,
      (stableSort secSortLe l).Pairwise (fun a b => secSortLe a b = true) :=
    fun l => pairwise_stableSort secSortLe
      (natLexLe_trans openBit getSectionPriority)
      (fun a b => (natLexLe_total openBit getSectionPriority a b))
      l
  refine ⟨?_, ?_, ?_, ?_⟩
  · intro l
    refine (hsorted l).imp ?_
    intro a b hle hb
    simp only [secSortLe, natLexLe, Bool.or_eq_true, Bool.and_eq_true,
      decide_eq_true_eq] at hle
    by_cases ha : a.is_open = true
    · exact ha
    · simp only [openBit, hb, if_pos] at hle
      rw [if_neg ha] at hle
      omega
  · intro l
    refine (hsorted l).imp ?_
    intro a b hle hab
    simp only [secSortLe, natLexLe, Bool.or_eq_true, Bool.and_eq_true,
      decide_eq_true_eq, openBit, hab] at hle
    omega
  · intro s hnone honl
    simp [getSectionPriority, hnone, honl]
  · intro s hnone honl
    simp [getSectionPriority, hnone, honl]

/-- C5 witness: the 2000 score of the unparseable candidate. -/
theorem candidate_ordering_amended_witness :
    getSectionPriority unparsedCand = 2000 :=
  candidate_ordering_amended.2.2.1 unparsedCand (by decide) (by decide)


/-! ## Invariants of the greedy selectors -/

/-- No two distinct sections of a schedule conflict pairwise. -/
def schedOK (schedule : List Section) : Prop :=
  ∀ x ∈ schedule, ∀ y ∈ schedule, x ≠ y → sectionConflictsWithSchedule x [y] = false

theorem schedOK_nil : schedOK [] := by intro x hx; cases hx

theorem schedOK_append (l : List Section) (s : Section) (h : schedOK l)
    (hc : sectionConflictsWithSchedule s l = false) : schedOK (l ++ [s]) := by
  have hall : ∀ y ∈ l, sectionConflictsWithSchedule s [y] = false := by
    rw [conflicts_any] at hc
    rw [List.any_eq_false] at hc
    intro y hy
    exact Bool.not_eq_true _ ▸ (hc y hy)
  intro x hx y hy hxy
  rcases List.mem_append.mp hx with hx1 | hx1 <;>
    rcases List.mem_append.mp hy with hy1 | hy1
  · exact h x hx1 y hy1 hxy
  · have hys : y = s := List.mem_singleton.mp hy1
    rw [hys, conflicts_pair_comm]
    exact hall x hx1
  · have hxs : x = s := List.mem_singleton.mp hx1
    rw [hxs]
    exact hall y hy1
  · exact absurd ((List.mem_singleton.mp hx1).trans (List.mem_singleton.mp hy1).symm) hxy

theorem committedSections_append (l1 l2 : List (String × Option Section)) :
    committedSections (l1 ++ l2) = committedSections l1 ++ committedSections l2 := by
  simp [committedSections, List.filterMap_append]

/-- The simple-mode fold keeps the committed list equal to the running
schedule and the schedule pairwise conflict-free. -/
theorem autoSelect_fold_inv (courses : List (String × List Section)) :
    ∀ (selected : List (String × Option Section)) (schedule : List Section),
      committedSections selected = schedule → schedOK schedule →
      committedSections (courses.foldl autoSelectStep (selected, schedule)).1 =
          (courses.foldl autoSelectStep (selected, schedule)).2 ∧
        schedOK (courses.foldl autoSelectStep (selected, schedule)).2 := by
  induction courses with
  | nil => intro selected schedule hcs hok; exact ⟨hcs, hok⟩
  | cons c cs ih =>
    intro selected schedule hcs hok
    rw [List.foldl_cons]
    by_cases hemp : c.2.isEmpty
    · have hstep : autoSelectStep (selected, schedule) c = (selected ++ [(c.1, none)], schedule) := by
        simp [autoSelectStep, hemp]
      rw [hstep]
      refine ih _ _ ?_ hok
      rw [committedSections_append, hcs]
      simp [committedSections]
    · cases hfind : (stableSort secSortLe c.2).find? (fun s => !sectionConflictsWithSchedule s schedule) with
      | some best =>
        have hstep : autoSelectStep (selected, schedule) c =
            (selected ++ [(c.1, some best)], schedule ++ [best]) := by
          simp [autoSelectStep, hemp, hfind]
        rw [hstep]
        have hbest : sectionConflictsWithSchedule best schedule = false := by
          have := List.find?_some hfind
          simpa using this
        refine ih _ _ ?_ (schedOK_append schedule best hok hbest)
        rw [committedSections_append, hcs]
        simp [committedSections]
      | none =>
        have hstep : autoSelectStep (selected, schedule) c = (selected ++ [(c.1, none)], schedule) := by
          simp [autoSelectStep, hemp, hfind]
        rw [hstep]
        refine ih _ _ ?_ hok
        rw [committedSections_append, hcs]
        simp [committedSections]

/-- The weak pair property the grouped selector actually enforces: not
(shared day and equal non-empty time string). -/
def weakPairOK (x y : Section) : Prop :=
  ¬(setsIntersect (daysSetList x.days) (daysSetList y.days) = true ∧
    x.time = y.time ∧ x.time ≠ "")

/-- Pairwise weak property over a committed list. -/
def weakOK (l : List Section) : Prop :=
  ∀ x ∈ l, ∀ y ∈ l, x ≠ y → weakPairOK x y

theorem weakOK_nil : weakOK [] := by intro x hx; cases hx

theorem setsIntersect_comm (a b : List String) : setsIntersect a b = setsIntersect b a := by
  rw [Bool.eq_iff_iff]
  simp only [setsIntersect, List.any_eq_true, List.elem_iff]
  constructor
  · rintro ⟨x, h1, h2⟩; exact ⟨x, h2, h1⟩
  · rintro ⟨x, h1, h2⟩; exact ⟨x, h2, h1⟩

theorem weakPairOK_comm (x y : Section) (h : weakPairOK x y) : weakPairOK y x := by
  rintro ⟨hi, ht, hne⟩
  exact h ⟨by rw [setsIntersect_comm]; exact hi, ht.symm, fun he => hne (ht ▸ he)⟩

theorem hasTimeConflict_pairs (s : Section) (l : List Section)
    (hc : hasTimeConflict s l = false) : ∀ e ∈ l, weakPairOK s e := by
  intro e he
  unfold hasTimeConflict at hc
  by_cases hguard : (daysSetList s.days).isEmpty || s.time = ""
  · rcases Bool.or_eq_true _ _ ▸ hguard with hd | ht
    · rintro ⟨hi, _, _⟩
      rw [List.isEmpty_iff] at hd
      rw [hd] at hi
      simp [setsIntersect] at hi
    · rintro ⟨_, _, hne⟩
      exact hne (by simpa using ht)
  · rw [if_neg] at hc
    · rw [List.any_eq_false] at hc
      have := hc e he
      rintro ⟨hi, ht, _⟩
      simp [hi, ht] at this
    · intro hcontra
      exact hguard (by simpa using hcontra)

theorem weakOK_append (l : List Section) (s : Section) (h : weakOK l)
    (hc : hasTimeConflict s l = false) : weakOK (l ++ [s]) := by
  have hall := hasTimeConflict_pairs s l hc
  intro x hx y hy hxy
  rcases List.mem_append.mp hx with hx1 | hx1 <;>
    rcases List.mem_append.mp hy with hy1 | hy1
  · exact h x hx1 y hy1 hxy
  · have hys : y = s := List.mem_singleton.mp hy1
    rw [hys]
    exact weakPairOK_comm _ _ (hall x hx1)
  · have hxs : x = s := List.mem_singleton.mp hx1
    rw [hxs]
    exact hall y hy1
  · exact absurd ((List.mem_singleton.mp hx1).trans (List.mem_singleton.mp hy1).symm) hxy

/-- The inner type-by-type loop of `tryGroup` only ever extends the
accumulated picks with conflict-checked sections. -/
theorem tryGroupGo_inv (gtypes : List (String × List Section)) (selected : List Section) :
    ∀ (acc gs : List Section), weakOK (selected ++ acc) →
      tryGroupGo selected gtypes acc = some gs →
      weakOK (selected ++ gs) := by
  induction gtypes with
  | nil =>
    intro acc gs hok hfold
    unfold tryGroupGo at hfold
    injection hfold with hfold
    rw [← hfold]
    exact hok
  | cons ty rest ih =>
    intro acc gs hok hfold
    unfold tryGroupGo at hfold
    cases hfind : (stableSort secSortLeV ty.2).find?
        (fun s => !hasTimeConflict s (selected ++ acc)) with
    | some s =>
      rw [hfind] at hfold
      have hs : hasTimeConflict s (selected ++ acc) = false := by
        have := List.find?_some hfind
        simpa using this
      have hok2 : weakOK (selected ++ (acc ++ [s])) := by
        rw [← List.append_assoc]
        exact weakOK_append _ s hok hs
      exact ih (acc ++ [s]) gs hok2 hfold
    | none =>
      rw [hfind] at hfold
      cases hfold

theorem tryGroup_inv (selected : List Section) (gtypes : List (String × List Section))
    (gs : List Section) (hok : weakOK selected)
    (h : tryGroup selected gtypes = some gs) : weakOK (selected ++ gs) := by
  unfold tryGroup at h
  exact tryGroupGo_inv gtypes selected [] gs (by simpa using hok) h

theorem tryGroups_inv (selected : List Section)
    (groups : List (Char × List (String × List Section))) (gs : List Section)
    (hok : weakOK selected) (h : tryGroups selected groups = some gs) :
    weakOK (selected ++ gs) := by
  induction groups with
  | nil => cases h
  | cons g rest ih =>
    unfold tryGroups at h
    cases hg : tryGroup selected g.2 with
    | some gs2 =>
      rw [hg] at h
      dsimp only at h
      by_cases hemp : gs2.isEmpty
      · rw [if_pos hemp] at h
        exact ih h
      · rw [if_neg hemp] at h
        injection h with h
        rw [← h]
        exact tryGroup_inv selected g.2 gs2 hok hg
    | none =>
      rw [hg] at h
      exact ih h

theorem selectValid_fold_inv (shuffle : {α : Type} → List α → List α)
    (courseItems : CoursesMap) :
    ∀ selected : List Section, weakOK selected →
      weakOK (courseItems.foldl
        (fun selected2 ci =>
          match tryGroups selected2 (shuffle ci.2) with
          | some gs => selected2 ++ gs
          | none => selected2)
        selected) := by
  induction courseItems with
  | nil => intro selected hok; exact hok
  | cons ci rest ih =>
    intro selected hok
    rw [List.foldl_cons]
    cases hg : tryGroups selected (shuffle ci.2) with
    | some gs =>
      exact ih _ (tryGroups_inv selected _ gs hok hg)
    | none =>
      exact ih _ hok

/-! ## Claim: no double-booking -/

/-- Two coordinated components of one course that overlap on Monday but
have different time strings. -/
def overlapLec : Section :=
  { course_code := "CSI2110", section_code := "A01-LEC", stype := "LEC",
    time := "08:30-10:00", days := .list ["Monday"], is_open := true }

/-- The overlapping lab component (09:00–10:30, same day). -/
def overlapLab : Section :=
  { course_code := "CSI2110", section_code := "A02-LAB", stype := "LAB",
    time := "09:00-10:30", days := .list ["Monday"], is_open := true }

/-- C1 counterexample.  A grouped-mode run (identity shuffle) commits both
overlapping components, and the section-4.3 conflict predicate holds on
the committed pair: the grouped selector compares time strings for
equality, not for interval overlap. -/
theorem no_double_booking_claim_counterexample :
    selectValidSections idShuffle [overlapLec, overlapLab] = [overlapLec, overlapLab] ∧
    sectionConflictsWithSchedule overlapLec [overlapLab] = true := by
  constructor
  · decide
  · decide

/-- C1 (amended).  Simple-mode results satisfy the section-4.3 pairwise
no-conflict invariant; grouped-mode results satisfy only the weaker
invariant that no two distinct committed sections share a day together
with an identical non-empty time string. -/
theorem no_double_booking_amended :
    (∀ (available : List (String × List Section)) (x y : Section),
      x ∈ committedSections (autoSelectSections available) →
      y ∈ committedSections (autoSelectSections available) →
      x ≠ y → sectionConflictsWithSchedule x [y] = false)
  ∧ (∀ (shuffle : {α : Type} → List α → List α) (available : List Section) (x y : Section),
      x ∈ selectValidSections shuffle available →
      y ∈ selectValidSections shuffle available →
      x ≠ y →
      ¬(setsIntersect (daysSetList x.days) (daysSetList y.days) = true ∧
        x.time = y.time ∧ x.time ≠ "")) := by
  constructor
  · intro available x y hx hy hxy
    have h := autoSelect_fold_inv (stableSort courseLenLe available) [] [] rfl schedOK_nil
    have hx2 : x ∈ ((stableSort courseLenLe available).foldl autoSelectStep ([], [])).2 := by
      rw [← h.1]; exact hx
    have hy2 : y ∈ ((stableSort courseLenLe available).foldl autoSelectStep ([], [])).2 := by
      rw [← h.1]; exact hy
    exact h.2 x hx2 y hy2 hxy
  · intro shuffle available x y hx hy hxy
    have h := selectValid_fold_inv shuffle (shuffle (buildCourses available)) [] weakOK_nil
    exact h x hx y hy hxy

/-- C1 witness: a two-course simple-mode run whose two committed sections
are certified conflict-free. -/
theorem no_double_booking_amended_witness :
    sectionConflictsWithSchedule
      { code := "MAT1341", sectionLabel := "A01", time := "08:30 - 10:00",
        days := .list ["Monday", "Wednesday"], is_open := true }
      [{ code := "CSI2110", sectionLabel := "B01", time := "10:00 - 11:30",
         days := .list ["Monday", "Wednesday"], is_open := false }] = false :=
  no_double_booking_amended.1
    [("CSI2110",
      [{ code := "CSI2110", sectionLabel := "A01", time := "08:30 - 10:00",
         days := .list ["Monday", "Wednesday"], is_open := true },
       { code := "CSI2110", sectionLabel := "B01", time := "10:00 - 11:30",
         days := .list ["Monday", "Wednesday"], is_open := false }]),
     ("MAT1341",
      [{ code := "MAT1341", sectionLabel := "A01", time := "08:30 - 10:00",
         days := .list ["Monday", "Wednesday"], is_open := true }])]
    _ _ (by decide) (by decide) (by decide)


/-! ## Claim: fewest-options-first course ordering -/

/-- The simple-mode fold emits one output entry per course, in processing
order. -/
theorem autoSelect_fold_keys (courses : List (String × List Section)) :
    ∀ (selected : List (String × Option Section)) (schedule : List Section),
      (courses.foldl autoSelectStep (selected, schedule)).1.map Prod.fst =
        selected.map Prod.fst ++ courses.map Prod.fst := by
  induction courses with
  | nil => intro selected schedule; simp
  | cons c cs ih =>
    intro selected schedule
    rw [List.foldl_cons]
    by_cases hemp : c.2.isEmpty
    · have hstep : autoSelectStep (selected, schedule) c = (selected ++ [(c.1, none)], schedule) := by
        simp [autoSelectStep, hemp]
      rw [hstep, ih]
      simp
    · cases hfind : (stableSort secSortLe c.2).find?
          (fun s => !sectionConflictsWithSchedule s schedule) with
      | some best =>
        have hstep : autoSelectStep (selected, schedule) c =
            (selected ++ [(c.1, some best)], schedule ++ [best]) := by
          simp [autoSelectStep, hemp, hfind]
        rw [hstep, ih]
        simp
      | none =>
        have hstep : autoSelectStep (selected, schedule) c = (selected ++ [(c.1, none)], schedule) := by
          simp [autoSelectStep, hemp, hfind]
        rw [hstep, ih]
        simp

/-- C4.  The simple-mode selector processes courses in ascending order of
candidate count (output order = the stable sort by count, whose counts are
pairwise ascending); in particular, with course A holding 1 candidate and
course B holding 5 — listed after B in the input — A is scheduled with its
sole candidate, and B still gets a section whenever some candidate of B
does not conflict with A's. -/
theorem fewest_options_first :
    (∀ available : List (String × List Section),
      (autoSelectSections available).map Prod.fst =
          (stableSort courseLenLe available).map Prod.fst ∧
        (stableSort courseLenLe available).Pairwise (fun a b => a.2.length ≤ b.2.length))
  ∧ (∀ (A B : String) (a b1 b2 b3 b4 b5 : Section), A ≠ B →
      (∃ c ∈ [b1, b2, b3, b4, b5], sectionConflictsWithSchedule c [a] = true) →
      (∃ c ∈ [b1, b2, b3, b4, b5], sectionConflictsWithSchedule c [a] = false) →
      ∃ sb,
        (autoSelectSections [(B, [b1, b2, b3, b4, b5]), (A, [a])]).find?
            (fun p => p.1 = A) = some (A, some a) ∧
        (autoSelectSections [(B, [b1, b2, b3, b4, b5]), (A, [a])]).find?
            (fun p => p.1 = B) = some (B, some sb) ∧
        sectionConflictsWithSchedule sb [a] = false) := by
  constructor
  · intro available
    constructor
    · unfold autoSelectSections
      rw [autoSelect_fold_keys]
      simp
    · refine (pairwise_stableSort courseLenLe ?_ ?_ available).imp ?_
      · intro x y z h1 h2
        simp only [courseLenLe, decide_eq_true_eq] at *
        omega
      · intro x y
        simp only [courseLenLe, decide_eq_true_eq]
        omega
      · intro x y h
        simpa [courseLenLe] using h
  · intro A B a b1 b2 b3 b4 b5 hAB hconf hfree
    have hsort : stableSort courseLenLe [(B, [b1, b2, b3, b4, b5]), (A, [a])] =
        [(A, [a]), (B, [b1, b2, b3, b4, b5])] := by
      simp [stableSort, insertSorted, courseLenLe]
    obtain ⟨c, hcmem, hcfalse⟩ := hfree
    have hex : ∃ s ∈ stableSort secSortLe [b1, b2, b3, b4, b5],
        (!sectionConflictsWithSchedule s [a]) = true :=
      ⟨c, (mem_stableSort _ _ _).mpr hcmem, by rw [hcfalse]; rfl⟩
    obtain ⟨sb, hfind, hsb⟩ := find?_of_exists _ _ hex
    have hsb2 : sectionConflictsWithSchedule sb [a] = false := by simpa using hsb
    have hstep1 : autoSelectStep ([], []) (A, [a]) = ([(A, some a)], [a]) := by
      simp [autoSelectStep, stableSort, insertSorted, List.find?, conflicts_nil]
    have hstep2 : autoSelectStep ([(A, some a)], [a]) (B, [b1, b2, b3, b4, b5]) =
        ([(A, some a), (B, some sb)], [a, sb]) := by
      simp [autoSelectStep, hfind]
    have hrun : autoSelectSections [(B, [b1, b2, b3, b4, b5]), (A, [a])] =
        [(A, some a), (B, some sb)] := by
      unfold autoSelectSections
      rw [hsort, List.foldl_cons, hstep1, List.foldl_cons, hstep2, List.foldl_nil]
    refine ⟨sb, ?_, ?_, hsb2⟩
    · rw [hrun]
      simp [List.find?]
    · rw [hrun]
      have h1 : (decide (A = B)) = false := decide_eq_false hAB
      simp [List.find?, h1]

/-- Candidate sections for the C4 witness scenario (the spec's own
example: `MAT1341` has one candidate, `CSI2110` five). -/
def matA01 : Section :=
  { code := "MAT1341", sectionLabel := "A01", time := "08:30 - 10:00",
    days := .list ["Monday", "Wednesday"], is_open := true }

/-- An 08:30 `CSI2110` candidate (conflicts with `matA01`). -/
def csiAt830 (lbl : String) : Section :=
  { code := "CSI2110", sectionLabel := lbl, time := "08:30 - 10:00",
    days := .list ["Monday", "Wednesday"], is_open := true }

/-- The closed 10:00 `CSI2110` candidate (conflict-free next to `matA01`). -/
def csiB01 : Section :=
  { code := "CSI2110", sectionLabel := "B01", time := "10:00 - 11:30",
    days := .list ["Monday", "Wednesday"], is_open := false }

/-- The C4 witness catalogue, with the scarce course listed second. -/
def c4Avail : List (String × List Section) :=
  [("CSI2110", [csiAt830 "A01", csiAt830 "A02", csiAt830 "A03", csiAt830 "A04", csiB01]),
   ("MAT1341", [matA01])]

/-- C4 witness: the spec's own example — `MAT1341` (one candidate) is
scheduled first; `CSI2110` still gets a conflict-free section. -/
theorem fewest_options_first_witness :
    ∃ sb,
      (autoSelectSections c4Avail).find? (fun p => p.1 = "MAT1341") =
          some ("MAT1341", some matA01) ∧
        (autoSelectSections c4Avail).find? (fun p => p.1 = "CSI2110") =
          some ("CSI2110", some sb) ∧
        sectionConflictsWithSchedule sb [matA01] = false :=
  fewest_options_first.2 "MAT1341" "CSI2110" matA01
    (csiAt830 "A01") (csiAt830 "A02") (csiAt830 "A03") (csiAt830 "A04") csiB01
    (by decide)
    ⟨csiAt830 "A01", by decide, by decide⟩
    ⟨csiB01, by decide, by decide⟩



/-! ## Claim: clear-then-insert materialization -/

/-- Python `addDays` only shifts the incoming count and appends to the incoming
store: the created records and their number do not depend on the
accumulator. -/
theorem addDays_shift (failOn : CalRecord → Bool) (mk : String → CalRecord) :
    ∀ (days : List String) (n : Nat) (db : CalendarDB),
      addDays failOn mk days (n, db) =
        (n + (addDays failOn mk days (0, [])).1, db ++ (addDays failOn mk days (0, [])).2) := by
  intro days
  induction days with
  | nil => intro n db; simp [addDays]
  | cons d rest ih =>
    intro n db
    unfold addDays
    by_cases hf : failOn (mk d) = true
    · simp [hf]
    · rw [Bool.not_eq_true] at hf
      simp only [hf, Bool.false_eq_true, if_false, Nat.zero_add, List.nil_append]
      rw [ih (n + 1) (db ++ [mk d]), ih 1 [mk d]]
      simp only [Prod.mk.injEq]
      exact ⟨by omega, by rw [List.append_assoc]⟩

/-- A course step likewise shifts the count and appends. -/
theorem addCourseStep_shift (failOn : CalRecord → Bool) (user : String) (td : TDate × TDate)
    (n : Nat) (db : CalendarDB) (cs : String × Option Section) :
    addCourseStep failOn user td (n, db) cs =
      (n + (addCourseStep failOn user td (0, []) cs).1,
       db ++ (addCourseStep failOn user td (0, []) cs).2) := by
  unfold addCourseStep
  cases hcs : cs.2 with
  | none => simp
  | some sec =>
    cases hpt : parseTimeString sec.time with
    | none => simp [hpt]
    | some times =>
      simp only [hpt]
      by_cases hemp : (parseDaysString sec.days).isEmpty
      · simp [hemp]
      · simp only [hemp, Bool.false_eq_true, if_false]
        exact addDays_shift failOn _ _ n db

/-- The whole per-course fold shifts the count and appends. -/
theorem addFold_shift (failOn : CalRecord → Bool) (user : String) (td : TDate × TDate) :
    ∀ (sel : List (String × Option Section)) (n : Nat) (db : CalendarDB),
      sel.foldl (addCourseStep failOn user td) (n, db) =
        (n + (sel.foldl (addCourseStep failOn user td) (0, [])).1,
         db ++ (sel.foldl (addCourseStep failOn user td) (0, [])).2) := by
  intro sel
  induction sel with
  | nil => intro n db; simp
  | cons c rest ih =>
    intro n db
    rw [List.foldl_cons, List.foldl_cons]
    rw [addCourseStep_shift failOn user td n db c]
    rw [ih (n + (addCourseStep failOn user td (0, []) c).1)
        (db ++ (addCourseStep failOn user td (0, []) c).2)]
    have hR : List.foldl (addCourseStep failOn user td) (addCourseStep failOn user td (0, []) c)
          rest =
        ((addCourseStep failOn user td (0, []) c).1 +
            (List.foldl (addCourseStep failOn user td) (0, []) rest).1,
          (addCourseStep failOn user td (0, []) c).2 ++
            (List.foldl (addCourseStep failOn user td) (0, []) rest).2) := by
      rw [addCourseStep_shift failOn user td 0 [] c]
      simp only [Nat.zero_add, List.nil_append]
      rw [ih ((addCourseStep failOn user td (0, []) c).1)
          ((addCourseStep failOn user td (0, []) c).2)]
    rw [hR]
    simp only [Prod.mk.injEq]
    exact ⟨by omega, by rw [List.append_assoc]⟩

/-- Every record `addDays` creates comes from its `mk` function. -/
theorem addDays_records (failOn : CalRecord → Bool) (mk : String → CalRecord) :
    ∀ (days : List String) (acc : Nat × CalendarDB) (r : CalRecord),
      r ∈ (addDays failOn mk days acc).2 → r ∈ acc.2 ∨ ∃ d, r = mk d := by
  intro days
  induction days with
  | nil => intro acc r hr; exact Or.inl hr
  | cons d rest ih =>
    intro acc r hr
    unfold addDays at hr
    by_cases hf : failOn (mk d) = true
    · rw [if_pos hf] at hr
      exact Or.inl hr
    · rw [Bool.not_eq_true] at hf
      simp only [hf, Bool.false_eq_true, if_false] at hr
      rcases ih (acc.1 + 1, acc.2 ++ [mk d]) r hr with h | h
      · rcases List.mem_append.mp h with h | h
        · exact Or.inl h
        · exact Or.inr ⟨d, List.mem_singleton.mp h⟩
      · exact Or.inr h

/-- Every record a course step creates carries this user, the term's date
bounds, and weekly recurrence — exactly what `clear_user_schedule`
deletes. -/
theorem addCourseStep_records_match (failOn : CalRecord → Bool) (user : String)
    (td : TDate × TDate) (cs : String × Option Section) (r : CalRecord)
    (hr : r ∈ (addCourseStep failOn user td (0, []) cs).2) :
    clearMatches user td.1 td.2 r = true := by
  unfold addCourseStep at hr
  cases hcs : cs.2 with
  | none => rw [hcs] at hr; simp at hr
  | some sec =>
    rw [hcs] at hr
    cases hpt : parseTimeString sec.time with
    | none => simp only [hpt] at hr; simp at hr
    | some times =>
      simp only [hpt] at hr
      by_cases hemp : (parseDaysString sec.days).isEmpty
      · simp [hemp] at hr
      · simp only [hemp, Bool.false_eq_true, if_false] at hr
        rcases addDays_records failOn _ _ _ r hr with h | ⟨d, hd⟩
        · simp at h
        · rw [hd]
          simp [mkCalRecord, clearMatches]

/-- Records appended by the whole fold all match the clear filter. -/
theorem addFold_records_match (failOn : CalRecord → Bool) (user : String) (td : TDate × TDate) :
    ∀ (sel : List (String × Option Section)) (r : CalRecord),
      r ∈ (sel.foldl (addCourseStep failOn user td) (0, [])).2 →
      clearMatches user td.1 td.2 r = true := by
  intro sel
  induction sel with
  | nil => intro r hr; simp at hr
  | cons c rest ih =>
    intro r hr
    rw [List.foldl_cons] at hr
    rw [addFold_shift failOn user td rest] at hr
    rcases List.mem_append.mp hr with hr1 | hr1
    · exact addCourseStep_records_match failOn user td c r hr1
    · exact ih r hr1

/-- The second component of a clear, as a plain filter. -/
theorem clearUserSchedule_snd (user term : String) (year : Nat) (db : CalendarDB) :
    (clearUserSchedule user term year db).2 =
      db.filter
        (fun r => !clearMatches user (getTermDates term year).1 (getTermDates term year).2 r) :=
  rfl

/-- The materializing insert, as count plus appended records. -/
theorem addSectionsToCalendar_eq (failOn : CalRecord → Bool) (user : String)
    (sel : List (String × Option Section)) (term : String) (year : Nat) (db : CalendarDB) :
    addSectionsToCalendar failOn user sel term year db =
      ((sel.foldl (addCourseStep failOn user (getTermDates term year)) (0, [])).1,
       db ++ (sel.foldl (addCourseStep failOn user (getTermDates term year)) (0, [])).2) := by
  unfold addSectionsToCalendar
  rw [addFold_shift failOn user (getTermDates term year) sel 0 db]
  simp

/-- C3.  Clearing removes every weekly record of this user with the
term's date bounds, and running clear-then-insert twice for the same
(user, term, selection) gives the same store and count as running it
once — regeneration does not accumulate records. -/
theorem materializer_idempotent :
    (∀ (user term : String) (year : Nat) (db : CalendarDB) (r : CalRecord),
      r ∈ (clearUserSchedule user term year db).2 →
      clearMatches user (getTermDates term year).1 (getTermDates term year).2 r = false)
  ∧ (∀ (failOn : CalRecord → Bool) (user : String)
      (sel : List (String × Option Section)) (term : String) (year : Nat) (db : CalendarDB),
      materializeSchedule failOn user sel term year
          (materializeSchedule failOn user sel term year db).2 =
        materializeSchedule failOn user sel term year db) := by
  constructor
  · intro user term year db r hr
    rw [clearUserSchedule_snd] at hr
    have := (List.mem_filter.mp hr).2
    simpa using this
  · intro failOn user sel term year db
    have hfnew : (List.filter
        (fun r => !clearMatches user (getTermDates term year).1 (getTermDates term year).2 r)
        ((sel.foldl (addCourseStep failOn user (getTermDates term year)) (0, [])).2)) = [] := by
      rw [List.filter_eq_nil_iff]
      intro r hr
      rw [addFold_records_match failOn user (getTermDates term year) sel r hr]
      simp
    unfold materializeSchedule
    rw [addSectionsToCalendar_eq, addSectionsToCalendar_eq]
    simp only [clearUserSchedule_snd]
    rw [List.filter_append _ _, hfnew, List.append_nil, List.filter_filter]
    simp

/-- C3 witness: a record surviving the clear is certified non-matching. -/
theorem materializer_idempotent_witness :
    clearMatches "alice" (getTermDates "Fall" 2025).1 (getTermDates "Fall" 2025).2
      { user := "bob", title := "T", start_time := ⟨9, 0⟩, end_time := ⟨10, 0⟩,
        day_of_week := "Monday", start_date := ⟨2025, 9, 3⟩, end_date := ⟨2025, 12, 2⟩,
        description := "", professor := "", location := "",
        recurrence_pattern := "weekly", theme := "blue" } = false :=
  materializer_idempotent.1 "alice" "Fall" 2025
    [{ user := "bob", title := "T", start_time := ⟨9, 0⟩, end_time := ⟨10, 0⟩,
       day_of_week := "Monday", start_date := ⟨2025, 9, 3⟩, end_date := ⟨2025, 12, 2⟩,
       description := "", professor := "", location := "",
       recurrence_pattern := "weekly", theme := "blue" }]
    _ (by decide)

/-! ## Claim: persistence-failure handling -/

/-- C8 (amended).  A rejected calendar write does not abort the run: the
per-course `except` swallows it, so materializing `sel1 ++ sel2` always
equals materializing `sel1` and then `sel2` — later courses are processed
and counted even when an earlier course's writes fail, and the function
returns an ordinary (count, store) value in every case. -/
theorem persistence_failure_amended (failOn : CalRecord → Bool) (user : String)
    (sel1 sel2 : List (String × Option Section)) (term : String) (year : Nat)
    (db : CalendarDB) :
    addSectionsToCalendar failOn user (sel1 ++ sel2) term year db =
      ((addSectionsToCalendar failOn user sel1 term year db).1 +
        (addSectionsToCalendar failOn user sel2 term year
          (addSectionsToCalendar failOn user sel1 term year db).2).1,
       (addSectionsToCalendar failOn user sel2 term year
         (addSectionsToCalendar failOn user sel1 term year db).2).2) := by
  have happ : (sel1 ++ sel2).foldl (addCourseStep failOn user (getTermDates term year))
        (0, ([] : CalendarDB)) =
      ((sel1.foldl (addCourseStep failOn user (getTermDates term year)) (0, [])).1 +
          (sel2.foldl (addCourseStep failOn user (getTermDates term year)) (0, [])).1,
        (sel1.foldl (addCourseStep failOn user (getTermDates term year)) (0, [])).2 ++
          (sel2.foldl (addCourseStep failOn user (getTermDates term year)) (0, [])).2) := by
    rw [List.foldl_append]
    conv_lhs =>
      rw [show sel1.foldl (addCourseStep failOn user (getTermDates term year)) (0, ([] : CalendarDB)) =
          ((sel1.foldl (addCourseStep failOn user (getTermDates term year)) (0, [])).1,
           (sel1.foldl (addCourseStep failOn user (getTermDates term year)) (0, [])).2) from rfl]
    rw [addFold_shift failOn user (getTermDates term year) sel2
        ((sel1.foldl (addCourseStep failOn user (getTermDates term year)) (0, [])).1)
        ((sel1.foldl (addCourseStep failOn user (getTermDates term year)) (0, [])).2)]
  rw [addSectionsToCalendar_eq, addSectionsToCalendar_eq, addSectionsToCalendar_eq, happ]
  simp only [Prod.mk.injEq]
  exact ⟨trivial, by rw [List.append_assoc]⟩

/-- The store rejects exactly the first course's record. -/
def rejectCS1 (r : CalRecord) : Bool := r.title = "CS1 - Course"

/-- C8 counterexample.  With a store that rejects the first course's
write, the run does not abort: it returns normally, reporting success for
the second course only (count 1) and persisting the second course's
record — the claimed hard-error propagation does not happen. -/
theorem persistence_failure_claim_counterexample :
    addSectionsToCalendar rejectCS1 "u"
        [("CS1", some { sectionLabel := "A01", time := "08:30 - 10:00",
                        days := .list ["Monday"] }),
         ("CS2", some { sectionLabel := "B01", time := "10:00 - 11:30",
                        days := .list ["Monday"] })]
        "Fall" 2025 [] =
      (1,
       [{ user := "u", title := "CS2 - Course", start_time := ⟨10, 0⟩,
          end_time := ⟨11, 30⟩, day_of_week := "Monday",
          start_date := ⟨2025, 9, 3⟩, end_date := ⟨2025, 12, 2⟩,
          description := "Section: B01" ++ "\n" ++ "Location: ",
          professor := "", location := "", recurrence_pattern := "weekly",
          theme := "midnight-light-blue" }]) ∧
    (addSectionsToCalendar rejectCS1 "u"
        [("CS1", some { sectionLabel := "A01", time := "08:30 - 10:00",
                        days := .list ["Monday"] })]
        "Fall" 2025 []).1 = 0 := by
  constructor
  · decide
  · decide


/-! ## Claim: loader fails soft -/

/-- Dict lookup by key. -/
def lookupKV (m : List (String × α)) (k : String) : Option α :=
  (m.find? (fun p => p.1 = k)).map Prod.snd

theorem lookupKV_isSome_iff (m : List (String × α)) (k : String) :
    (lookupKV m k).isSome = true ↔ k ∈ m.map Prod.fst := by
  unfold lookupKV
  rw [show ∀ o : Option (String × α), (o.map Prod.snd).isSome = o.isSome from
    fun o => by cases o <;> rfl]
  rw [List.find?_isSome]
  simp only [List.mem_map, decide_eq_true_eq]

theorem dictSet_keys (m : List (String × α)) (k : String) (v : α) :
    (dictSet m k v).map Prod.fst =
      if m.any (fun p => p.1 = k) then m.map Prod.fst else m.map Prod.fst ++ [k] := by
  unfold dictSet
  by_cases h : m.any (fun p => p.1 = k)
  · rw [if_pos h, if_pos h, List.map_map]
    refine List.map_congr_left ?_
    intro p _
    by_cases hp : p.1 = k
    · simp [hp]
    · simp [hp]
  · rw [if_neg h, if_neg h]
    simp

theorem dictSet_mem_keys (m : List (String × α)) (k : String) (v : α) (c : String)
    (h : c ∈ m.map Prod.fst ∨ c = k) : c ∈ (dictSet m k v).map Prod.fst := by
  rw [dictSet_keys]
  by_cases hany : m.any (fun p => p.1 = k)
  · rw [if_pos hany]
    rcases h with h | h
    · exact h
    · rw [List.any_eq_true] at hany
      rcases hany with ⟨p, hp, hpk⟩
      rw [h]
      simp only [decide_eq_true_eq] at hpk
      exact hpk ▸ List.mem_map_of_mem Prod.fst hp
  · rw [if_neg hany]
    rcases h with h | h
    · exact List.mem_append.mpr (Or.inl h)
    · exact List.mem_append.mpr (Or.inr (by rw [h]; exact List.mem_singleton.mpr rfl))

/-- Folding `result[code] = resolve(code)` over the requested codes gives
an entry for every requested (or pre-existing) key. -/
theorem fold_dictSet_domain (F : String → List Section) :
    ∀ (codes : List String) (acc : List (String × List Section)) (c : String),
      (c ∈ codes ∨ c ∈ acc.map Prod.fst) →
      c ∈ ((codes.foldl (fun result courseCode => dictSet result courseCode (F courseCode))
          acc).map Prod.fst) := by
  intro codes
  induction codes with
  | nil =>
    intro acc c h
    rcases h with h | h
    · cases h
    · exact h
  | cons d rest ih =>
    intro acc c h
    rw [List.foldl_cons]
    rcases h with h | h
    · rcases List.mem_cons.mp h with h | h
      · exact ih _ c (Or.inr (dictSet_mem_keys acc d (F d) c (Or.inr h)))
      · exact ih _ c (Or.inl h)
    · exact ih _ c (Or.inr (dictSet_mem_keys acc d (F d) c (Or.inl h)))

/-- The per-term fallback loader yields `{}` when no per-term file exists. -/
theorem singleFile_missing (fs : FS) (term : String)
    (h : ∀ p ∈ singleFilePaths (slugOf term), fs p = .missing) :
    loadCourseDataFromSingleFile fs term = [] := by
  unfold loadCourseDataFromSingleFile
  have hfind : (singleFilePaths (slugOf term)).find? (fileExists fs) = none := by
    rw [List.find?_eq_none]
    intro p hp
    unfold fileExists
    rw [h p hp]
    simp
  rw [hfind]

/-- C6.  The loader never raises: with no course-data file anywhere it
returns `{}`; with an unreadable/unparseable best file it returns `{}`;
with a readable file but no key matching the term (and no per-term
fallback file) it returns `{}`; and `find_sections_for_courses` returns a
map holding an entry for every requested course code. -/
theorem loader_fails_soft :
    (∀ (fs : FS) (term : String), (∀ p, fs p = .missing) → loadCourseData fs term = [])
  ∧ (∀ (fs : FS) (term : String),
      fs (getCourseDataPath fs) = .malformed → loadCourseData fs term = [])
  ∧ (∀ (fs : FS) (term : String) (d : List (String × List RawSection)),
      fs (getCourseDataPath fs) = .okDict d →
      (∀ k ∈ d.map Prod.fst,
        strIn (pyLower term) (pyLower k) = false ∧
        pyLower k ≠ pyLower (mapTermToKairollFormat term)) →
      (∀ p ∈ singleFilePaths (slugOf term), fs p = .missing) →
      loadCourseData fs term = [])
  ∧ (∀ (fs : FS) (codes : List String) (term : String) (c : String), c ∈ codes →
      c ∈ (findSectionsForCourses fs codes term).map Prod.fst) := by
  refine ⟨?_, ?_, ?_, ?_⟩
  · intro fs term h
    unfold loadCourseData
    rw [h (getCourseDataPath fs)]
  · intro fs term h
    unfold loadCourseData
    rw [h]
  · intro fs term d hdict hkeys hsingle
    unfold loadCourseData
    rw [hdict]
    have hm1 : (d.map Prod.fst).filter (fun k => strIn (pyLower term) (pyLower k)) = [] := by
      rw [List.filter_eq_nil_iff]
      intro k hk
      rw [(hkeys k hk).1]
      simp
    have hm2 : (d.map Prod.fst).filter
        (fun k => pyLower k = pyLower (mapTermToKairollFormat term)) = [] := by
      rw [List.filter_eq_nil_iff]
      intro k hk
      simp [(hkeys k hk).2]
    simp only [hm1, hm2, List.isEmpty_nil, if_pos]
    rw [singleFile_missing fs term hsingle]
    simp [firstMaxByYear]
  · intro fs codes term c hc
    unfold findSectionsForCourses
    exact fold_dictSet_domain _ codes [] c (Or.inl hc)

/-- C6 witness: an empty file system loads as the empty map. -/
theorem loader_fails_soft_witness :
    loadCourseData (fun _ => ReadResult.missing) "Fall" = [] ∧
    "CSI2110" ∈ (findSectionsForCourses (fun _ => ReadResult.missing) ["CSI2110"] "Fall").map
      Prod.fst :=
  ⟨loader_fails_soft.1 (fun _ => ReadResult.missing) "Fall" (fun _ => rfl),
   loader_fails_soft.2.2.2 (fun _ => ReadResult.missing) ["CSI2110"] "Fall" "CSI2110"
     (List.mem_singleton.mpr rfl)⟩

/-! ## Claim: fuzzy course-code matching -/

theorem scoreLt_trans (a b c : Nat × Nat) (h1 : scoreLt a b = true) (h2 : scoreLt b c = true) :
    scoreLt a c = true := by
  simp only [scoreLt, Bool.or_eq_true, Bool.and_eq_true, decide_eq_true_eq] at *
  omega

theorem scoreLt_irrefl (a : Nat × Nat) : scoreLt a a = false := by
  cases h : scoreLt a a with
  | false => rfl
  | true =>
    exfalso
    simp only [scoreLt, Bool.or_eq_true, Bool.and_eq_true, decide_eq_true_eq] at h
    omega

theorem scoreLt_asymm (a b : Nat × Nat) (h : scoreLt a b = true) : scoreLt b a = false := by
  cases hlt : scoreLt b a with
  | false => rfl
  | true =>
    exfalso
    simp only [scoreLt, Bool.or_eq_true, Bool.and_eq_true, decide_eq_true_eq] at h hlt
    omega

theorem scoreLt_lt_of_not_lt (a s hd : Nat × Nat) (h1 : scoreLt a s = true)
    (h2 : scoreLt hd s = false) : scoreLt a hd = true := by
  have h2a : ¬(hd.1 < s.1 ∨ (hd.1 = s.1 ∧ hd.2 < s.2)) := by
    intro hcon
    have hc2 : scoreLt hd s = true := by
      simp only [scoreLt, Bool.or_eq_true, Bool.and_eq_true, decide_eq_true_eq]
      exact hcon
    rw [hc2] at h2
    cases h2
  simp only [scoreLt, Bool.or_eq_true, Bool.and_eq_true, decide_eq_true_eq] at h1 ⊢
  omega


/-- The fuzzy candidate fold either keeps the incoming accumulator (no
candidate beats the incoming score) or lands on a candidate that strictly
beats the incoming score, strictly beats every earlier candidate, and is
not strictly beaten by any later one. -/
theorem fuzzyFold_spec (nc : String) (tn : Option Nat) :
    ∀ (cands : List (String × Option Nat)) (b : Option String) (s : Nat × Nat),
      (cands.foldl (fuzzyStep nc tn) (b, s) = (b, s) ∧
        ∀ p ∈ cands, scoreLt (candScore nc tn p) s = false)
    ∨ (∃ cg l1 l2, cands = l1 ++ cg :: l2 ∧
        cands.foldl (fuzzyStep nc tn) (b, s) = (some cg.1, candScore nc tn cg) ∧
        scoreLt (candScore nc tn cg) s = true ∧
        (∀ p ∈ l1, scoreLt (candScore nc tn cg) (candScore nc tn p) = true) ∧
        (∀ p ∈ l2, scoreLt (candScore nc tn p) (candScore nc tn cg) = false)) := by
  intro cands
  induction cands with
  | nil =>
    intro b s
    left
    exact ⟨rfl, by simp⟩
  | cons hd tl ih =>
    intro b s
    rw [List.foldl_cons]
    by_cases himp : scoreLt (candScore nc tn hd) s = true
    · have hstep : fuzzyStep nc tn (b, s) hd = (some hd.1, candScore nc tn hd) := by
        unfold fuzzyStep
        rw [if_pos himp]
      rw [hstep]
      rcases ih (some hd.1) (candScore nc tn hd) with ⟨heq, hall⟩ |
          ⟨cg, l1, l2, htl, hfold, hlt, hl1, hl2⟩
      · right
        exact ⟨hd, [], tl, by simp, heq, himp, by simp, hall⟩
      · right
        refine ⟨cg, hd :: l1, l2, by rw [htl, List.cons_append], hfold,
          scoreLt_trans _ _ _ hlt himp, ?_, hl2⟩
        intro p hp
        rcases List.mem_cons.mp hp with hph | hph
        · rw [hph]
          exact hlt
        · exact hl1 p hph
    · have himpf : scoreLt (candScore nc tn hd) s = false := by
        cases hv : scoreLt (candScore nc tn hd) s with
        | false => rfl
        | true => exact absurd hv himp
      have hstep : fuzzyStep nc tn (b, s) hd = (b, s) := by
        unfold fuzzyStep
        rw [if_neg himp]
      rw [hstep]
      rcases ih b s with ⟨heq, hall⟩ | ⟨cg, l1, l2, htl, hfold, hlt, hl1, hl2⟩
      · left
        refine ⟨heq, ?_⟩
        intro p hp
        rcases List.mem_cons.mp hp with hph | hph
        · rw [hph]
          exact himpf
        · exact hall p hph
      · right
        refine ⟨cg, hd :: l1, l2, by rw [htl, List.cons_append], hfold, hlt, ?_, hl2⟩
        intro p hp
        rcases List.mem_cons.mp hp with hph | hph
        · rw [hph]
          exact scoreLt_lt_of_not_lt _ _ _ hlt himpf
        · exact hl1 p hph

/-- The fuzzy matcher picks a candidate of minimal score, and among
candidates of equal minimal score the first in enumeration order. -/
theorem fuzzyPick_spec (nc : String) (tn : Option Nat) (cands : List (String × Option Nat))
    (c : String) (h : fuzzyPick nc tn cands = some c) :
    ∃ n l1 l2, cands = l1 ++ (c, n) :: l2 ∧
      (∀ p ∈ l1, scoreLt (candScore nc tn (c, n)) (candScore nc tn p) = true) ∧
      (∀ p ∈ cands, scoreLt (candScore nc tn p) (candScore nc tn (c, n)) = false) := by
  unfold fuzzyPick at h
  rcases fuzzyFold_spec nc tn cands none (10 ^ 9, 10 ^ 9) with ⟨heq, _⟩ |
      ⟨cg, l1, l2, htl, hfold, _, hl1, hl2⟩
  · rw [heq] at h
    cases h
  · rw [hfold] at h
    have hc : cg.1 = c := by
      injection h with h2
    have hcg : (c, cg.2) = cg := by
      rw [← hc]
    refine ⟨cg.2, l1, l2, ?_, ?_, ?_⟩
    · rw [htl, hcg]
    · intro p hp
      rw [hcg]
      exact hl1 p hp
    · intro p hp
      rw [hcg]
      rw [htl] at hp
      rcases List.mem_append.mp hp with hp1 | hp1
      · exact scoreLt_asymm _ _ (hl1 p hp1)
      · rcases List.mem_cons.mp hp1 with hp2 | hp2
        · rw [hp2]
          exact scoreLt_irrefl _
        · exact hl2 p hp2

/-- C7 (amended).  When a requested code is not found verbatim, the
same-subject fuzzy pick minimizes the score `(|number diff|, 0 if the
candidate is the exact normalized code else 1)` and breaks remaining ties
by the *first occurrence in the enumeration order of available codes*
(not lexicographically); with no subject letters and a non-empty
substring fallback the first code containing the request's first three
characters wins; with nothing plausible the course maps to the empty
section list. -/
theorem fuzzy_matcher_amended :
    (∀ (nc : String) (tn : Option Nat) (cands : List (String × Option Nat)) (c : String),
      fuzzyPick nc tn cands = some c →
      ∃ n l1 l2, cands = l1 ++ (c, n) :: l2 ∧
        (∀ p ∈ l1, scoreLt (candScore nc tn (c, n)) (candScore nc tn p) = true) ∧
        (∀ p ∈ cands, scoreLt (candScore nc tn p) (candScore nc tn (c, n)) = false))
  ∧ (∀ (courseSections : List (String × List Section)) (availableCodes : List String)
      (subjMap : List (String × List (String × Option Nat))) (courseCode b0 : String)
      (pr : String × List Section),
      [courseCode, normalizeCourseCode courseCode, addSpaceToCourseCode courseCode].findSome?
          (fun sc => (courseSections.find? (fun p => p.1 = sc)).map Prod.snd) = none →
      (extractSubjectAndNumber courseCode).1 = "" →
      (availableCodes.filter
          (fun code =>
            strIn (String.mk ((normalizeCourseCode courseCode).toList.take 3)) code)).head? =
        some b0 →
      courseSections.find? (fun p => p.1 = b0) = some pr →
      findSectionsForOneCourse courseSections availableCodes subjMap courseCode = pr.2)
  ∧ (∀ (courseSections : List (String × List Section)) (availableCodes : List String)
      (subjMap : List (String × List (String × Option Nat))) (courseCode : String),
      [courseCode, normalizeCourseCode courseCode, addSpaceToCourseCode courseCode].findSome?
          (fun sc => (courseSections.find? (fun p => p.1 = sc)).map Prod.snd) = none →
      (extractSubjectAndNumber courseCode).1 = "" →
      (availableCodes.filter
          (fun code =>
            strIn (String.mk ((normalizeCourseCode courseCode).toList.take 3)) code)) = [] →
      findSectionsForOneCourse courseSections availableCodes subjMap courseCode = []) := by
  refine ⟨fun nc tn cands c h => fuzzyPick_spec nc tn cands c h, ?_, ?_⟩
  · intro courseSections availableCodes subjMap courseCode b0 pr hver hsub hhead hfind
    unfold findSectionsForOneCourse
    dsimp only
    rw [hver]
    simp only [hsub, ne_eq, not_true_eq_false, if_false, hhead, hfind]
  · intro courseSections availableCodes subjMap courseCode hver hsub hnil
    unfold findSectionsForOneCourse
    dsimp only
    rw [hver]
    simp only [hsub, ne_eq, not_true_eq_false, if_false, hnil, List.head?_nil]

/-- A raw section carrying only a course code, for the tie-break scenario. -/
def c7raw (c : String) : RawSection := { courseCode := some c, sectionF := some "A01" }

/-- A catalogue listing `CSI 3000` before `CSI 1000`. -/
def c7fs : FS := fun p =>
  if p = "scrapers/data/all_courses_by_term.json" then
    .okDict [("Fall 2025", [c7raw "CSI 3000", c7raw "CSI 1000"])]
  else .missing

/-- C7 counterexample.  Requesting `CSI2000` against available codes
`CSI3000` and `CSI1000` (in that enumeration order): both tie at numeric
distance 1000 and neither is the exact code, yet the matcher returns the
sections of `CSI3000` — the first in enumeration order — although
`CSI1000` is the lexicographically smaller tie, so ties are not broken
lexicographically. -/
theorem fuzzy_tiebreak_claim_counterexample :
    lookupKV (findSectionsForCourses c7fs ["CSI2000"] "Fall") "CSI2000" =
      some [sectionInfoOf "CSI3000" (c7raw "CSI 3000")] ∧
    candScore "CSI2000" (some 2000) ("CSI1000", some 1000) =
      candScore "CSI2000" (some 2000) ("CSI3000", some 3000) ∧
    "CSI1000".toList < "CSI3000".toList ∧
    lookupKV (loadCourseData c7fs "Fall") "CSI1000" ≠ none ∧
    ("CSI1000" : String) ≠ "CSI3000" := by
  refine ⟨by decide, by decide, by decide, by decide, by decide⟩

/-- C7 witness: the amended characterization at the tie-break scenario. -/
theorem fuzzy_matcher_amended_witness :
    ∃ n l1 l2,
      [("CSI3000", some 3000), ("CSI1000", some 1000)] = l1 ++ ("CSI3000", n) :: l2 ∧
      (∀ p ∈ l1,
        scoreLt (candScore "CSI2000" (some 2000) ("CSI3000", n))
          (candScore "CSI2000" (some 2000) p) = true) ∧
      (∀ p ∈ [(("CSI3000" : String), some 3000), ("CSI1000", some 1000)],
        scoreLt (candScore "CSI2000" (some 2000) p)
          (candScore "CSI2000" (some 2000) ("CSI3000", n)) = false) :=
  fuzzy_matcher_amended.1 "CSI2000" (some 2000)
    [("CSI3000", some 3000), ("CSI1000", some 1000)] "CSI3000" (by decide)

end Kairo
